import Mathlib

/-!
Shallow embedding of the `vlog_travel_finder` repository (a Flask CMS) and
proofs about the claims of its specification.

The definitions below are direct translations of the Python source:

* `Vlog.cleanStr`, `Vlog.slugify`       — `vlog_site/utils.py`
* `Vlog.requireFeatureGate`             — `vlog_site/access_control.py`
* `Vlog.adminAuthGate`, `Vlog.isAdmin`  — `vlog_site/blueprints/admin.py`
* `Vlog.toggleAnswered`                 — `vlog_site/blueprints/admin.py`
* `Vlog.adminPostNew`                   — `vlog_site/blueprints/admin.py`
* `Vlog.logPageView`                    — `vlog_site/__init__.py`
* `Vlog.blogIndexPosts`, `Vlog.blogPostDetail` — `vlog_site/blueprints/public.py`
* `Vlog.upgradeSqliteSchema` and its steps     — `vlog_site/db.py`

SQLite timestamps are TEXT and are compared as strings by SQLite, so they are
modelled as `String` with lexicographic order.  The HMAC-SHA256 primitive used
by the page-view logger is abstracted as a function parameter (its internals
are cryptographic and irrelevant to every claim).
-/

namespace Vlog

/-- Python `s.strip()` on the characters of the string (drop whitespace at
both ends). -/
def trimChars (l : List Char) : List Char :=
  ((l.dropWhile Char.isWhitespace).reverse.dropWhile Char.isWhitespace).reverse

/-- Python `s.strip()`. -/
def strTrim (s : String) : String :=
  String.mk (trimChars s.toList)

/-- Python `s.lower()` (characterwise). -/
def strLower (s : String) : String :=
  String.mk (s.toList.map Char.toLower)

/-- `utils.clean_str`: strip a form value; blank collapses to `None`. -/
def cleanStr (value : Option String) : Option String :=
  match value with
  | none => none
  | some s =>
    let t := strTrim s
    if t = "" then none else some t

/-- COALESCE of two nullable SQL values (used by the v2→v3 backfill). -/
def coalesce (a b : Option String) : Option String :=
  match a with
  | some v => some v
  | none => b

/-- Python truthiness of a nullable string (`if x:`): `None` and `""` are falsy. -/
def optTruthy (o : Option String) : Bool :=
  match o with
  | none => false
  | some s => s != ""

/-- Python `s[:n]`: the first `n` characters of a string. -/
def strTake (s : String) (n : Nat) : String :=
  String.mk (s.toList.take n)

/- ### Sessions and requests -/

/-- The part of the Flask session the gates read: `user_id` and the
`anonymous_preview` flag. -/
structure SessionData where
  userId : Option Nat
  anonymousPreview : Bool
deriving Repr, DecidableEq

/-- The part of a request the gates read: path and raw query string. -/
structure RequestData where
  path : String
  queryString : String
deriving Repr, DecidableEq

/-- `request.full_path if request.query_string else request.path` — the
"return to" target attached to login redirects. -/
def nextUrl (r : RequestData) : String :=
  if r.queryString ≠ "" then r.path ++ "?" ++ r.queryString else r.path

/- ### Feature access control (`access_control.py`) -/

/-- `access_control.is_authenticated`. -/
def isAuthenticated (sess : SessionData) : Bool :=
  if sess.anonymousPreview then false
  else sess.userId.isSome

/-- Primary-key lookup of an access rule row (`db.get(AccessRule, feature)`). -/
def lookupRule (rules : List (String × Bool)) (feature : String) : Option Bool :=
  (rules.find? (fun kv => kv.1 == feature)).map (fun kv => kv.2)

/-- `access_control.anonymous_allowed`: missing row means allowed. -/
def anonymousAllowed (rules : List (String × Bool)) (feature : String) : Bool :=
  match lookupRule rules feature with
  | none => true
  | some b => b

/-- Outcome of the `require_feature` wrapper around a view. -/
inductive GateOutcome where
  | proceed
  | previewDenied (feature : String)
  | loginRedirect (next : String)
deriving Repr, DecidableEq

/-- `access_control.require_feature(feature)` applied to one request.
(The flash message attached to the login redirect is not modelled.) -/
def requireFeatureGate (rules : List (String × Bool)) (feature : String)
    (sess : SessionData) (req : RequestData) : GateOutcome :=
  if anonymousAllowed rules feature then .proceed
  else if sess.anonymousPreview then .previewDenied feature
  else if !(isAuthenticated sess) then .loginRedirect (nextUrl req)
  else .proceed

/- ### Admin-area gate (`blueprints/admin.py`) -/

/-- A row of the `user` table as the runtime reads it. -/
structure UserRow where
  id : Nat
  email : String
  passwordHash : String
  role : String
deriving Repr, DecidableEq

/-- `admin.is_admin`: the session's `user_id` must belong to a user whose
role is `'admin'`.  The `anonymous_preview` flag is not consulted. -/
def isAdmin (users : List UserRow) (sess : SessionData) : Bool :=
  match sess.userId with
  | none => false
  | some uid =>
    match users.find? (fun u => u.id == uid) with
    | none => false
    | some u => u.role == "admin"

/-- Outcome of the `before_request` admin gate. -/
inductive AdminGateResult where
  | pass
  | redirectLogin (next : String)
deriving Repr, DecidableEq

/-- `admin._admin_auth_gate`: admins pass; the admin index and login
endpoints stay reachable; everyone else is redirected to login. -/
def adminAuthGate (users : List UserRow) (sess : SessionData)
    (endpoint : String) (req : RequestData) : AdminGateResult :=
  if isAdmin users sess then .pass
  else if endpoint == "admin.admin_login" || endpoint == "admin.admin_index" then .pass
  else .redirectLogin (nextUrl req)

/- ### Contact messages (`blueprints/admin.py`) -/

/-- A row of the `contact_message` table. -/
structure ContactMessage where
  id : Nat
  name : String
  email : String
  subject : String
  message : String
  answeredAt : Option String
  createdAt : String
deriving Repr, DecidableEq

/-- `admin.admin_message_toggle_answered` applied to the message it found:
`msg.answered_at = None if msg.answered_at else now`.  Python truthiness
makes an empty string behave like `None` here. -/
def toggleAnswered (now : String) (m : ContactMessage) : ContactMessage :=
  { m with answeredAt := if optTruthy m.answeredAt then none else some now }

/- ### Page-view logging (`vlog_site/__init__.py`, `_log_page_view`) -/

/-- A row of the `page_view` table (the fields `_log_page_view` writes). -/
structure PageView where
  path : String
  method : String
  statusCode : Nat
  referrer : Option String
  userAgent : Option String
  ipHash : Option String
  country : Option String
deriving Repr, DecidableEq

/-- The request data `_log_page_view` reads. -/
structure PageRequest where
  path : String
  method : String
  xForwardedFor : Option String
  remoteAddr : Option String
  referrer : Option String
  userAgent : Option String
  cfIpCountry : Option String
  xCountry : Option String
deriving Repr, DecidableEq

/-- Python `s.startswith(p)` on the characters of the strings. -/
def strStartsWith (s p : String) : Bool :=
  p.toList.isPrefixOf s.toList

/-- Paths excluded from page-view logging. -/
def pageViewExcluded (path : String) : Bool :=
  strStartsWith path "/admin" || strStartsWith path "/static" ||
    strStartsWith path "/uploads" || path == "/favicon.ico"

/-- `headers.get("X-Forwarded-For", request.remote_addr or "")`, then
`(ip.split(",")[0] if ip else "").strip()`. -/
def clientIp (r : PageRequest) : String :=
  let ip :=
    match r.xForwardedFor with
    | some v => v
    | none => r.remoteAddr.getD ""
  strTrim (if ip ≠ "" then (ip.splitOn ",").headD "" else "")

/-- `headers.get("CF-IPCountry") or headers.get("X-Country")` with Python
`or` semantics, then `country.strip()[:16]` guarded by truthiness. -/
def countryField (r : PageRequest) : Option String :=
  let c := if optTruthy r.cfIpCountry then r.cfIpCountry else r.xCountry
  match c with
  | none => none
  | some v => if v != "" then some (strTake (strTrim v) 16) else some v

/-- `(request.referrer or "")[:500] or None` (same for the user agent). -/
def truncField (o : Option String) : Option String :=
  let t := strTake (o.getD "") 500
  if t = "" then none else some t

/-- The record `_log_page_view` appends.  `hmacHex` abstracts
`hmac.new(secret, ip, sha256).hexdigest()`. -/
def mkPageView (hmacHex : String → String → String) (secret : String)
    (r : PageRequest) (status : Nat) : PageView :=
  let ip := clientIp r
  { path := r.path
    method := r.method
    statusCode := status
    referrer := truncField r.referrer
    userAgent := truncField r.userAgent
    ipHash := if ip ≠ "" ∧ secret ≠ "" then some (hmacHex secret ip) else none
    country := countryField r }

/-- One `after_request` pass of `_log_page_view` over the page-view table. -/
def logPageView (hmacHex : String → String → String) (secret : String)
    (views : List PageView) (r : PageRequest) (status : Nat) : List PageView :=
  if pageViewExcluded r.path then views
  else if !(r.method == "GET" || r.method == "HEAD") then views
  else views ++ [mkPageView hmacHex secret r status]

/-- A sequence of requests (each with its response status) run through the
logger in order. -/
def processRequests (hmacHex : String → String → String) (secret : String)
    (views : List PageView) (reqs : List (PageRequest × Nat)) : List PageView :=
  reqs.foldl (fun acc p => logPageView hmacHex secret acc p.1 p.2) views

/- ### Blog visibility (`blueprints/public.py`) -/

/-- A row of the `blog_post` table. -/
structure BlogPost where
  id : Nat
  title : String
  slug : String
  contentMd : String
  status : String
  publishAt : Option String
  createdAt : String
deriving Repr, DecidableEq

/-- Lexicographic comparison of character lists — SQLite's memcmp ordering
of TEXT values. -/
def charListLt : List Char → List Char → Bool
  | [], [] => false
  | [], _ :: _ => true
  | _ :: _, [] => false
  | a :: as, b :: bs =>
    if a.toNat < b.toNat then true
    else if b.toNat < a.toNat then false
    else charListLt as bs

/-- SQLite `<` on TEXT values. -/
def strLt (a b : String) : Bool :=
  charListLt a.toList b.toList

/-- SQLite `<=` on TEXT values. -/
def strLe (a b : String) : Bool :=
  strLt a b || a == b

/-- The WHERE clause shared by `blog_index` and `blog_post`:
`status = 'published' AND (publish_at IS NULL OR publish_at <= datetime('now'))`.
SQLite compares the TEXT timestamps as strings. -/
def publiclyVisible (now : String) (p : BlogPost) : Bool :=
  p.status == "published" &&
    (match p.publishAt with
     | none => true
     | some d => strLe d now)

/-- `ORDER BY COALESCE(publish_at, created_at) DESC, id DESC` as a strict
order on rows. -/
def blogOrder (p q : BlogPost) : Prop :=
  strLt (q.publishAt.getD q.createdAt) (p.publishAt.getD p.createdAt) = true ∨
    (p.publishAt.getD p.createdAt = q.publishAt.getD q.createdAt ∧ q.id < p.id)

instance : DecidableRel blogOrder := fun p q => by
  unfold blogOrder
  infer_instance

/-- `public.blog_index`: WHERE, ORDER BY, `LIMIT 200`. -/
def blogIndexPosts (now : String) (posts : List BlogPost) : List BlogPost :=
  ((posts.filter (publiclyVisible now)).insertionSort blogOrder).take 200

/-- `public.blog_post`: the first published, non-future row with the given
slug; `none` means the view aborts with 404. -/
def blogPostDetail (now : String) (posts : List BlogPost) (slug : String) :
    Option BlogPost :=
  (posts.filter (fun p => p.slug == slug && publiclyVisible now p)).head?

/- ### Slug generation (`utils.slugify`) and post creation (`admin.admin_post_new`) -/

/-- The character loop of `utils.slugify`: alphanumerics pass through, a run
of other characters emits a single `'-'` (tracked by `prev_dash`). -/
def slugChars : List Char → Bool → List Char
  | [], _ => []
  | c :: cs, prevDash =>
    if c.isAlphanum then c :: slugChars cs false
    else if prevDash then slugChars cs prevDash
    else '-' :: slugChars cs true

/-- Python `"".join(out).strip("-")`: drop `'-'` from both ends. -/
def stripDashes (l : List Char) : List Char :=
  ((l.dropWhile (fun c => c == '-')).reverse.dropWhile (fun c => c == '-')).reverse

/-- `utils.slugify`. -/
def slugify (value : String) : String :=
  let v := strLower (strTrim value)
  let slug := String.mk (stripDashes (slugChars v.toList false))
  if slug = "" then "post" else slug

/-- Modelled from the spec's wording of the slug rule: the maximal runs of
alphanumeric characters of the lowercased, stripped title. -/
def alnumRuns : List Char → List (List Char)
  | [] => []
  | c :: cs =>
    if c.isAlphanum then
      (c :: cs.takeWhile Char.isAlphanum) :: alnumRuns (cs.dropWhile Char.isAlphanum)
    else alnumRuns cs
termination_by l => l.length
decreasing_by
  · exact Nat.lt_succ_of_le (List.dropWhile_sublist _).length_le
  · exact Nat.lt_succ_self _

/-- Join runs with single hyphens (what "each maximal non-alphanumeric run
becomes one hyphen, then hyphens are trimmed from the ends" amounts to). -/
def joinRuns : List (List Char) → List Char
  | [] => []
  | r :: [] => r
  | r :: rs => r ++ '-' :: joinRuns rs

/-- The spec's description of slug generation: lowercase, collapse every
maximal run of non-alphanumerics to one hyphen, trim hyphens, fall back to
`"post"` when nothing is left. -/
def specSlug (value : String) : String :=
  let core := joinRuns (alnumRuns (strLower (strTrim value)).toList)
  if core = [] then "post" else String.mk core

/-- Leading dash the loop emits when the input starts with a non-alphanumeric. -/
def dashHead (cs : List Char) : List Char :=
  match cs with
  | [] => []
  | c :: _ => if c.isAlphanum then [] else ['-']

/-- Whether the last character of the list is alphanumeric (`true` on `[]`). -/
def lastIsAlnum : List Char → Bool
  | [] => true
  | [c] => c.isAlphanum
  | _ :: c :: cs => lastIsAlnum (c :: cs)

/-- Trailing dash the loop emits when the input ends with a non-alphanumeric
run that follows some alphanumeric character. -/
def dashTail (cs : List Char) : List Char :=
  if alnumRuns cs = [] then [] else if lastIsAlnum cs then [] else ['-']

/-- A store of 201 published posts for the C5 counterexample. -/
def cexBlogPosts : List BlogPost :=
  (List.range 201).reverse.map (fun i =>
    { id := i, title := "T", slug := "p" ++ toString i, contentMd := "",
      status := "published", publishAt := none, createdAt := "2020-01-01 00:00:00" })

/-- The oldest of the 201 posts. -/
def cexBlogPost0 : BlogPost :=
  { id := 0, title := "T", slug := "p0", contentMd := "", status := "published",
    publishAt := none, createdAt := "2020-01-01 00:00:00" }

/-- Result of submitting the new-post form. -/
inductive CreatePostResult where
  | missingTitle
  | duplicateSlug (slug : String)
  | created (slug : String)
deriving Repr, DecidableEq

/-- SQLite AUTOINCREMENT id for a fresh `blog_post` row (the exact value is
irrelevant to every claim). -/
def nextPostId (posts : List BlogPost) : Nat :=
  posts.foldl (fun a p => max a p.id) 0 + 1

/-- The POST branch of `admin.admin_post_new`: form fields are cleaned, a
missing slug is generated from the title, and a duplicate slug is reported
as a form error without storing anything. -/
def adminPostNew (now : String) (rawTitle rawSlug : Option String) (contentMd : String)
    (rawStatus : Option String) (publishAt : Option String)
    (posts : List BlogPost) : CreatePostResult × List BlogPost :=
  match cleanStr rawTitle with
  | none => (.missingTitle, posts)
  | some title =>
    let finalSlug :=
      match cleanStr rawSlug with
      | some s => s
      | none => slugify title
    if posts.any (fun p => p.slug == finalSlug) then
      (.duplicateSlug finalSlug, posts)
    else
      (.created finalSlug,
        posts ++ [{ id := nextPostId posts
                    title := title
                    slug := finalSlug
                    contentMd := contentMd
                    status := (cleanStr rawStatus).getD "draft"
                    publishAt := publishAt
                    createdAt := now }])

/- ### SQLite schema migration (`db.upgrade_sqlite_schema`) -/

/-- The columns of the `place` table the v2→v3 step reads or writes.  A
column that is not yet in the table's column list is NULL in every row. -/
structure PlaceRow where
  name : String
  websiteUrl : Option String
  youtubeUrl : Option String
  tiktokUrl : Option String
  venueWebsiteUrl : Option String
  venueYoutubeUrl : Option String
  venueTiktokUrl : Option String
  venueInstagramUrl : Option String
  venueFacebookUrl : Option String
  vlogYoutubeUrl : Option String
  vlogTiktokUrl : Option String
  vlogInstagramUrl : Option String
deriving Repr, DecidableEq

/-- A row of the legacy `admin_user` table (`created_at` is nullable only to
honour the `COALESCE(:created_at, datetime('now'))` in the v4→v5 step). -/
structure AdminUserRow where
  username : String
  passwordHash : String
  createdAt : Option String
deriving Repr, DecidableEq

/-- A row of the `user` table as the v4→v5 step writes it. -/
structure MigratedUser where
  email : String
  passwordHash : String
  role : String
  createdAt : String
deriving Repr, DecidableEq

/-- The slice of a SQLite store that `upgrade_sqlite_schema` touches:
`PRAGMA user_version`, the table list, and the rows of the tables the steps
read or write.  Tables whose rows no step touches appear only in `tables`. -/
structure Store where
  version : Nat
  tables : List String
  placeCols : List String
  places : List PlaceRow
  settings : List (String × Option String)
  adminUsers : List AdminUserRow
  users : List MigratedUser
  accessRules : List (String × Bool)
deriving Repr, DecidableEq

/-- `CREATE TABLE IF NOT EXISTS` for a table whose rows no migration step
reads or writes (`category`, `blog_post`, `contact_message`). -/
def createBareTable (t : String) (s : Store) : Store :=
  if t ∈ s.tables then s else { s with tables := s.tables ++ [t] }

/-- `CREATE TABLE IF NOT EXISTS site_setting ...`. -/
def createSiteSettingTable (s : Store) : Store :=
  if "site_setting" ∈ s.tables then s
  else { s with tables := s.tables ++ ["site_setting"], settings := [] }

/-- `CREATE TABLE IF NOT EXISTS user ...`. -/
def createUserTable (s : Store) : Store :=
  if "user" ∈ s.tables then s
  else { s with tables := s.tables ++ ["user"], users := [] }

/-- `CREATE TABLE IF NOT EXISTS access_rule ...`. -/
def createAccessRuleTable (s : Store) : Store :=
  if "access_rule" ∈ s.tables then s
  else { s with tables := s.tables ++ ["access_rule"], accessRules := [] }

/-- The version-0 step sends its whole six-statement DDL script (three
`CREATE TABLE IF NOT EXISTS`, three `CREATE INDEX IF NOT EXISTS`) through a
single `conn.execute(text(...))`.  The sqlite3 driver prepares only one
statement per `execute` call and raises
`ProgrammingError("You can only execute one statement at a time.")` on a
multi-statement string — which is why the later v3 and v4 steps switch to
`conn.connection.executescript`.  So this step always raises before any DDL
runs: no table is created, the enclosing transaction rolls back, and the
exception propagates out of `upgrade_sqlite_schema`. -/
def step0 (_s : Store) : Except String Store :=
  .error "You can only execute one statement at a time."

/-- `INSERT OR IGNORE INTO site_setting (key, value)`. -/
def insertSettingIfAbsent (settings : List (String × Option String))
    (k : String) (v : Option String) : List (String × Option String) :=
  if settings.any (fun kv => kv.1 == k) then settings else settings ++ [(k, v)]

/-- The version-1 step: create `site_setting` and seed the two contact keys. -/
def step1 (s : Store) : Store :=
  let s1 := createSiteSettingTable s
  let s2 := { s1 with settings := insertSettingIfAbsent s1.settings "contact_email" none }
  let s3 := { s2 with settings := insertSettingIfAbsent s2.settings "contact_phone" none }
  { s3 with version := 2 }

/-- `ALTER TABLE place ADD COLUMN c TEXT NULL` sets the new column to NULL
in every existing row. -/
def clearPlaceCol (col : String) (r : PlaceRow) : PlaceRow :=
  if col == "venue_website_url" then { r with venueWebsiteUrl := none }
  else if col == "venue_youtube_url" then { r with venueYoutubeUrl := none }
  else if col == "venue_tiktok_url" then { r with venueTiktokUrl := none }
  else if col == "venue_instagram_url" then { r with venueInstagramUrl := none }
  else if col == "venue_facebook_url" then { r with venueFacebookUrl := none }
  else if col == "vlog_youtube_url" then { r with vlogYoutubeUrl := none }
  else if col == "vlog_tiktok_url" then { r with vlogTiktokUrl := none }
  else if col == "vlog_instagram_url" then { r with vlogInstagramUrl := none }
  else r

/-- The UPDATE backfill of the version-2 step. -/
def backfillPlace (r : PlaceRow) : PlaceRow :=
  { r with venueWebsiteUrl := coalesce r.venueWebsiteUrl r.websiteUrl
           venueYoutubeUrl := coalesce r.venueYoutubeUrl r.youtubeUrl
           venueTiktokUrl := coalesce r.venueTiktokUrl r.tiktokUrl }

/-- The columns the version-2 step adds when absent. -/
def newPlaceCols : List String :=
  ["venue_website_url", "venue_youtube_url", "venue_tiktok_url",
   "venue_instagram_url", "venue_facebook_url", "vlog_youtube_url",
   "vlog_tiktok_url", "vlog_instagram_url"]

/-- `_add_col`: add one column to `place` unless the snapshot `cols` (from
`PRAGMA table_info(place)`) already lists it. -/
def addMissingCol (cols : List String) (st : Store) (c : String) : Store :=
  if c ∈ cols then st
  else { st with placeCols := st.placeCols ++ [c],
                 places := st.places.map (clearPlaceCol c) }

/-- The schema/data change of the version-2 step. -/
def step2body (s : Store) : Store :=
  let s1 := newPlaceCols.foldl (addMissingCol s.placeCols) s
  { s1 with places := s1.places.map backfillPlace, version := 3 }

/-- The version-2 step: `PRAGMA table_info(place)` snapshots the columns,
missing ones are added, then the legacy single-purpose URL columns are
backfilled into the venue columns.  When the `place` table does not exist
the ALTER/UPDATE statements fail and the transaction rolls back; SQL errors
are modelled as a generic `.error`. -/
def step2 (s : Store) : Except String Store :=
  if "place" ∈ s.tables then .ok (step2body s)
  else .error "no such table: place"

/-- The setting keys the version-3 step seeds. -/
def step3Keys : List String :=
  ["featured_youtube_url", "smtp_host", "smtp_port", "smtp_username",
   "smtp_password", "smtp_from", "smtp_to"]

/-- The schema/data change of the version-3 step. -/
def step3body (s : Store) : Store :=
  let s2 := createBareTable "contact_message" (createBareTable "blog_post" s)
  { s2 with settings := step3Keys.foldl (fun acc k => insertSettingIfAbsent acc k none) s2.settings,
            version := 4 }

/-- The version-3 step: create the blog and contact tables, then seed the
SMTP/video setting keys (which needs `site_setting` to exist). -/
def step3 (s : Store) : Except String Store :=
  if "site_setting" ∈ (createBareTable "contact_message" (createBareTable "blog_post" s)).tables
  then .ok (step3body s)
  else .error "no such table: site_setting"

/-- `INSERT OR IGNORE INTO user ...` for one legacy admin row: ignored when
the email (the legacy username) is already taken. -/
def insertUserIfAbsent (now : String) (users : List MigratedUser)
    (row : AdminUserRow) : List MigratedUser :=
  if users.any (fun u => u.email == row.username) then users
  else users ++ [{ email := row.username
                   passwordHash := row.passwordHash
                   role := "admin"
                   createdAt := row.createdAt.getD now }]

/-- The feature list seeded with anonymous access allowed. -/
def defaultFeatures : List String := ["home", "places", "blog", "contact", "about"]

/-- `INSERT OR IGNORE INTO access_rule (feature, anonymous_access) VALUES (f, 1)`. -/
def insertRuleIfAbsent (rules : List (String × Bool)) (f : String) :
    List (String × Bool) :=
  if rules.any (fun kv => kv.1 == f) then rules else rules ++ [(f, true)]

/-- The version-4 step: create `user` and `access_rule`, migrate legacy
admin accounts (the `SELECT ... FROM admin_user` is wrapped in try/except,
yielding no rows when the table is missing), and seed the default rules. -/
def step4 (now : String) (s : Store) : Store :=
  let s2 := createAccessRuleTable (createUserTable s)
  let adminRows := if "admin_user" ∈ s2.tables then s2.adminUsers else []
  let s3 := { s2 with users := adminRows.foldl (insertUserIfAbsent now) s2.users }
  let s4 := { s3 with accessRules := defaultFeatures.foldl insertRuleIfAbsent s3.accessRules }
  { s4 with version := 5 }

/-- `latest_version = 5`. -/
def latestVersion : Nat := 5

/-- One iteration of the upgrade loop: the step owning the current version,
or the `RuntimeError("Unsupported schema version: ...")`. -/
def stepOf (now : String) (s : Store) : Except String Store :=
  if s.version == 0 then step0 s
  else if s.version == 1 then .ok (step1 s)
  else if s.version == 2 then step2 s
  else if s.version == 3 then step3 s
  else if s.version == 4 then .ok (step4 now s)
  else .error ("Unsupported schema version: " ++ toString s.version)

/-- The `while version < latest_version` loop.  Every successful step raises
the version by exactly one, so `latestVersion` iterations always suffice;
the fuel argument only bounds the recursion and is never exhausted. -/
def upgradeLoop (now : String) : Nat → Store → Except String Store
  | 0, s => .ok s
  | fuel + 1, s =>
    if s.version < latestVersion then
      match stepOf now s with
      | .ok s1 => upgradeLoop now fuel s1
      | .error e => .error e
    else .ok s

/-- The version inference for legacy databases whose `PRAGMA user_version`
still reads 0. -/
def inferVersion (tables : List String) : Nat :=
  if "site_setting" ∈ tables then 2
  else if "place" ∈ tables ∧ "category" ∈ tables ∧ "admin_user" ∈ tables then 1
  else 0

/-- `db.upgrade_sqlite_schema`: read the persisted version, infer one for
legacy stores still at 0, then run the upgrade loop. -/
def upgradeSqliteSchema (now : String) (s : Store) : Except String Store :=
  let s1 :=
    if s.version == 0 then { s with version := inferVersion s.tables }
    else s
  upgradeLoop now latestVersion s1

/-- The whole-run additivity relation: tables, place columns, settings,
users and access rules only grow, and place rows are neither added nor
removed nor renamed. -/
def StoreLe (s t : Store) : Prop :=
  (∀ x ∈ s.tables, x ∈ t.tables) ∧
  ("place" ∈ s.tables →
    (∀ c ∈ s.placeCols, c ∈ t.placeCols) ∧ t.places.length = s.places.length ∧
      t.places.map PlaceRow.name = s.places.map PlaceRow.name) ∧
  ("site_setting" ∈ s.tables → ∃ l, t.settings = s.settings ++ l) ∧
  ("user" ∈ s.tables → ∃ l, t.users = s.users ++ l) ∧
  ("access_rule" ∈ s.tables → ∃ l, t.accessRules = s.accessRules ++ l)

/-- Well-formedness of a persisted store: the tables that earlier versions
guarantee are present (matching every store the application itself ever
produces). -/
def wfStore (s : Store) : Prop :=
  ((1 ≤ s.version ∨ "site_setting" ∈ s.tables) →
    "place" ∈ s.tables ∧ "category" ∈ s.tables ∧ "admin_user" ∈ s.tables) ∧
  (2 ≤ s.version → "site_setting" ∈ s.tables)

/-!
## Theorems

One theorem per claim of the specification, with witnesses instantiating
each theorem that carries hypotheses.
-/

/-- **C3.** For a feature whose access rule exists with `anonymous_access`
false: an anonymous-preview session gets the preview denial view and never a
redirect; a session that is not in preview and holds no user id is
redirected to login carrying the request's return target; a session holding
a user id (not in preview) reaches the wrapped handler. -/
theorem claim_C3 (rules : List (String × Bool)) (feature : String)
    (sess : SessionData) (req : RequestData)
    (hrule : lookupRule rules feature = some false) :
    (sess.anonymousPreview = true →
      requireFeatureGate rules feature sess req = .previewDenied feature ∧
        ∀ target, requireFeatureGate rules feature sess req ≠ .loginRedirect target) ∧
    (sess.anonymousPreview = false → sess.userId = none →
      requireFeatureGate rules feature sess req = .loginRedirect (nextUrl req)) ∧
    (sess.anonymousPreview = false → ∀ uid, sess.userId = some uid →
      requireFeatureGate rules feature sess req = .proceed) := by
  have hallow : anonymousAllowed rules feature = false := by
    simp [anonymousAllowed, hrule]
  refine ⟨fun hp => ?_, fun hp hu => ?_, fun hp uid hu => ?_⟩
  · constructor
    · simp [requireFeatureGate, hallow, hp]
    · intro target
      simp [requireFeatureGate, hallow, hp]
  · simp [requireFeatureGate, hallow, hp, isAuthenticated, hu]
  · simp [requireFeatureGate, hallow, hp, isAuthenticated, hu]

/-- Witness for C3 at a concrete store, feature and the three session shapes. -/
theorem claim_C3_witness :
    (requireFeatureGate [("blog", false)] "blog" ⟨some 1, true⟩ ⟨"/blog", ""⟩
        = .previewDenied "blog") ∧
    (requireFeatureGate [("blog", false)] "blog" ⟨none, false⟩ ⟨"/blog", ""⟩
        = .loginRedirect (nextUrl ⟨"/blog", ""⟩)) ∧
    (requireFeatureGate [("blog", false)] "blog" ⟨some 7, false⟩ ⟨"/blog", ""⟩
        = .proceed) :=
  ⟨((claim_C3 _ _ _ _ (by decide)).1 rfl).1,
   (claim_C3 _ _ _ _ (by decide)).2.1 rfl rfl,
   (claim_C3 _ _ _ _ (by decide)).2.2 rfl 7 rfl⟩

/-- **C4.** A store with no access-rule row for a feature produces exactly
the same gate outcome as a store whose rule has `anonymous_access` true:
both invoke the wrapped handler unconditionally. -/
theorem claim_C4 (rulesAbsent rulesTrue : List (String × Bool)) (feature : String)
    (sess : SessionData) (req : RequestData)
    (habsent : lookupRule rulesAbsent feature = none)
    (htrue : lookupRule rulesTrue feature = some true) :
    requireFeatureGate rulesAbsent feature sess req = .proceed ∧
    requireFeatureGate rulesTrue feature sess req = .proceed ∧
    requireFeatureGate rulesAbsent feature sess req
      = requireFeatureGate rulesTrue feature sess req := by
  have h1 : anonymousAllowed rulesAbsent feature = true := by
    simp [anonymousAllowed, habsent]
  have h2 : anonymousAllowed rulesTrue feature = true := by
    simp [anonymousAllowed, htrue]
  refine ⟨?_, ?_, ?_⟩ <;> simp [requireFeatureGate, h1, h2]

/-- Witness for C4: an empty rule table versus an explicit `(home, true)` row. -/
theorem claim_C4_witness :
    requireFeatureGate [] "home" ⟨none, false⟩ ⟨"/", ""⟩ = .proceed ∧
    requireFeatureGate [("home", true)] "home" ⟨none, false⟩ ⟨"/", ""⟩ = .proceed ∧
    requireFeatureGate [] "home" ⟨none, false⟩ ⟨"/", ""⟩
      = requireFeatureGate [("home", true)] "home" ⟨none, false⟩ ⟨"/", ""⟩ :=
  claim_C4 _ _ _ _ _ (by decide) (by decide)

/-- **C9 as stated is false.** Toggling a message whose `answered_at` is
already set leaves the field non-null after two toggles (set → null → new
timestamp), so the double toggle does not return every message to null. -/
theorem claim_C9_counterexample :
    (toggleAnswered "2024-07-02T00:00:00+00:00"
        (toggleAnswered "2024-07-01T00:00:00+00:00"
          { id := 1, name := "Ada", email := "ada@example.com", subject := "Hi",
            message := "Hello", answeredAt := some "2024-06-01T00:00:00+00:00",
            createdAt := "2024-05-01T00:00:00+00:00" })).answeredAt ≠ none := by
  decide

/-- **C9 amended.** For a message whose `answered_at` is null, toggling
twice returns the message (field included) exactly to its original state;
the toggle writes the current timestamp when the field is null or empty and
null when it holds a non-empty string, and no other field ever changes. -/
theorem claim_C9_amended (now now2 : String) (m : ContactMessage)
    (hnow : now ≠ "") :
    (m.answeredAt = none → toggleAnswered now2 (toggleAnswered now m) = m) ∧
    (m.answeredAt = none → toggleAnswered now m = { m with answeredAt := some now }) ∧
    (∀ s, m.answeredAt = some s → s ≠ "" →
      toggleAnswered now m = { m with answeredAt := none }) ∧
    (m.answeredAt = some "" → toggleAnswered now m = { m with answeredAt := some now }) ∧
    ((toggleAnswered now m).id = m.id ∧ (toggleAnswered now m).name = m.name ∧
      (toggleAnswered now m).email = m.email ∧
      (toggleAnswered now m).subject = m.subject ∧
      (toggleAnswered now m).message = m.message ∧
      (toggleAnswered now m).createdAt = m.createdAt) := by
  have hb : (now == "") = false := by
    simpa using hnow
  refine ⟨fun h => ?_, fun h => ?_, fun s hs hsne => ?_, fun h => ?_, ?_⟩
  · cases m
    simp_all [toggleAnswered, optTruthy, bne]
  · cases m
    simp_all [toggleAnswered, optTruthy]
  · cases m
    have : (s == "") = false := by simpa using hsne
    simp_all [toggleAnswered, optTruthy, bne]
  · cases m
    simp_all [toggleAnswered, optTruthy]
  · simp [toggleAnswered]

/-- Witness for C9 amended: an unanswered message toggled twice is restored. -/
theorem claim_C9_amended_witness :
    toggleAnswered "2024-07-02T00:00:00+00:00"
        (toggleAnswered "2024-07-01T00:00:00+00:00"
          { id := 2, name := "Bo", email := "bo@example.com", subject := "Q",
            message := "M", answeredAt := none, createdAt := "2024-05-01T00:00:00+00:00" })
      = { id := 2, name := "Bo", email := "bo@example.com", subject := "Q",
          message := "M", answeredAt := none, createdAt := "2024-05-01T00:00:00+00:00" } :=
  (claim_C9_amended "2024-07-01T00:00:00+00:00" "2024-07-02T00:00:00+00:00" _
    (by decide)).1 rfl

/-- **C10.** The before-request admin gate decides only from whether the
session's user id belongs to a role-`admin` user: the `anonymous_preview`
flag changes neither `is_admin` nor the gate; an admin passes for every
endpoint (the preview-stop endpoint in particular); a non-admin is
redirected to login for every endpoint except the admin index and login. -/
theorem claim_C10 (users : List UserRow) (sess : SessionData) (ep : String)
    (req : RequestData) (b : Bool) :
    isAdmin users { sess with anonymousPreview := b } = isAdmin users sess ∧
    adminAuthGate users { sess with anonymousPreview := b } ep req
      = adminAuthGate users sess ep req ∧
    (isAdmin users sess = true → adminAuthGate users sess ep req = .pass) ∧
    (isAdmin users sess = true →
      adminAuthGate users sess "admin.admin_preview_stop" req = .pass) ∧
    (isAdmin users sess = false → ep ≠ "admin.admin_login" → ep ≠ "admin.admin_index" →
      adminAuthGate users sess ep req = .redirectLogin (nextUrl req)) ∧
    (isAdmin users sess = false → (ep = "admin.admin_login" ∨ ep = "admin.admin_index") →
      adminAuthGate users sess ep req = .pass) := by
  refine ⟨rfl, rfl, fun h => ?_, fun h => ?_, fun h h1 h2 => ?_, fun h h12 => ?_⟩
  · simp [adminAuthGate, h]
  · simp [adminAuthGate, h]
  · have e1 : (ep == "admin.admin_login") = false := by simpa using h1
    have e2 : (ep == "admin.admin_index") = false := by simpa using h2
    simp [adminAuthGate, h, e1, e2]
  · rcases h12 with h12 | h12 <;> simp [adminAuthGate, h, h12]

/-- Witness for C10: one admin session (with the preview flag set) and one
member session against a concrete user table. -/
theorem claim_C10_witness :
    adminAuthGate [{ id := 1, email := "a@x", passwordHash := "h", role := "admin" }]
        ⟨some 1, true⟩ "admin.admin_preview_stop" ⟨"/admin/preview/stop", ""⟩ = .pass ∧
    adminAuthGate [{ id := 1, email := "a@x", passwordHash := "h", role := "admin" }]
        ⟨some 2, false⟩ "admin.admin_dashboard" ⟨"/admin/dashboard", ""⟩
      = .redirectLogin (nextUrl ⟨"/admin/dashboard", ""⟩) :=
  ⟨(claim_C10 _ ⟨some 1, true⟩ "admin.admin_preview_stop" _ true).2.2.2.1 (by decide),
   (claim_C10 _ ⟨some 2, false⟩ "admin.admin_dashboard" _ true).2.2.2.2.1 (by decide)
     (by decide) (by decide)⟩

/-- One eligible request appends exactly its record. -/
theorem logPageView_eligible (hmacHex : String → String → String) (secret : String)
    (vs : List PageView) (r : PageRequest) (status : Nat)
    (hex : pageViewExcluded r.path = false)
    (hm : r.method = "GET" ∨ r.method = "HEAD") :
    logPageView hmacHex secret vs r status = vs ++ [mkPageView hmacHex secret r status] := by
  rcases hm with hm | hm <;> simp [logPageView, hex, hm]

/-- **C8.** A sequence of GET/HEAD requests outside the excluded prefixes
appends exactly one record each (so the count grows by exactly N and
nothing is removed); excluded paths and other methods append nothing; each
record carries the request's path, method and status, referrer/user-agent
truncated to at most 500 characters, and the keyed hash of the first
forwarded client IP rather than the address itself. -/
theorem claim_C8 (hmacHex : String → String → String) (secret : String)
    (views : List PageView) (reqs : List (PageRequest × Nat))
    (helig : ∀ pr ∈ reqs, pageViewExcluded pr.1.path = false ∧
      (pr.1.method = "GET" ∨ pr.1.method = "HEAD")) :
    processRequests hmacHex secret views reqs
        = views ++ reqs.map (fun pr => mkPageView hmacHex secret pr.1 pr.2) ∧
    (processRequests hmacHex secret views reqs).length = views.length + reqs.length ∧
    (∀ (r : PageRequest) (status : Nat) (vs : List PageView),
      pageViewExcluded r.path = true → logPageView hmacHex secret vs r status = vs) ∧
    (∀ (r : PageRequest) (status : Nat) (vs : List PageView),
      r.method ≠ "GET" → r.method ≠ "HEAD" → logPageView hmacHex secret vs r status = vs) ∧
    (∀ (r : PageRequest) (status : Nat),
      (mkPageView hmacHex secret r status).path = r.path ∧
      (mkPageView hmacHex secret r status).method = r.method ∧
      (mkPageView hmacHex secret r status).statusCode = status ∧
      (∀ x, (mkPageView hmacHex secret r status).referrer = some x → x.length ≤ 500) ∧
      (∀ x, (mkPageView hmacHex secret r status).userAgent = some x → x.length ≤ 500) ∧
      (mkPageView hmacHex secret r status).ipHash
        = (if clientIp r ≠ "" ∧ secret ≠ "" then some (hmacHex secret (clientIp r))
           else none)) := by
  have hlen : ∀ (s : String) (n : Nat), (strTake s n).length ≤ n := by
    intro s n
    show (String.mk (s.toList.take n)).length ≤ n
    have h1 : (String.mk (s.toList.take n)).length = (s.toList.take n).length := rfl
    rw [h1, List.length_take]
    exact Nat.min_le_left _ _
  have htrunc : ∀ (o : Option String) x, truncField o = some x → x.length ≤ 500 := by
    intro o x hx
    simp only [truncField] at hx
    split at hx
    · exact absurd hx (by simp)
    · cases hx
      exact hlen _ _
  have hmain : processRequests hmacHex secret views reqs
      = views ++ reqs.map (fun pr => mkPageView hmacHex secret pr.1 pr.2) := by
    induction reqs generalizing views with
    | nil => simp [processRequests]
    | cons pr rest ih =>
      have h1 := helig pr (by simp)
      have hstep := logPageView_eligible hmacHex secret views pr.1 pr.2 h1.1 h1.2
      have hrest := ih (views ++ [mkPageView hmacHex secret pr.1 pr.2])
        (fun q hq => helig q (by simp [hq]))
      simp only [processRequests, List.foldl_cons] at hrest ⊢
      rw [hstep, hrest]
      simp
  refine ⟨hmain, ?_, ?_, ?_, ?_⟩
  · rw [hmain]
    simp
  · intro r status vs hx
    simp [logPageView, hx]
  · intro r status vs h1 h2
    have e1 : (r.method == "GET") = false := by simpa using h1
    have e2 : (r.method == "HEAD") = false := by simpa using h2
    by_cases hx : pageViewExcluded r.path <;> simp [logPageView, hx, e1, e2]
  · intro r status
    refine ⟨rfl, rfl, rfl, htrunc _, htrunc _, rfl⟩

/-- Witness for C8: two eligible requests starting from an empty log. -/
theorem claim_C8_witness :
    processRequests (fun a b => a ++ "#" ++ b) "key" ([] : List PageView)
        [(⟨"/blog", "GET", some "1.2.3.4, 9.9.9.9", none, none, some "UA", some "US", none⟩, 200),
         (⟨"/places", "HEAD", none, some "5.6.7.8", some "/blog", none, none, none⟩, 200)]
      = ([] : List PageView)
        ++ [(⟨"/blog", "GET", some "1.2.3.4, 9.9.9.9", none, none, some "UA", some "US", none⟩, 200),
               (⟨"/places", "HEAD", none, some "5.6.7.8", some "/blog", none, none, none⟩,
                 200)].map
          (fun pr => mkPageView (fun a b => a ++ "#" ++ b) "key" pr.1 pr.2) ∧
    (processRequests (fun a b => a ++ "#" ++ b) "key" ([] : List PageView)
        [(⟨"/blog", "GET", some "1.2.3.4, 9.9.9.9", none, none, some "UA", some "US", none⟩, 200),
         (⟨"/places", "HEAD", none, some "5.6.7.8", some "/blog", none, none, none⟩,
           200)]).length = ([] : List PageView).length + 2 :=
  ⟨(claim_C8 _ _ _ _ (by decide)).1, (claim_C8 _ _ _ _ (by decide)).2.1⟩

set_option maxRecDepth 10000 in
/-- **C5 as stated is false for the list view.** `blog_index` caps its
query at `LIMIT 200`: in a store of 201 published, past-dated posts the
201st in display order is visible by the status/date rule yet missing from
the list view. -/
theorem claim_C5_counterexample :
    publiclyVisible "2024-01-01 00:00:00" cexBlogPost0 = true ∧
    cexBlogPost0 ∈ cexBlogPosts ∧
    cexBlogPost0 ∉ blogIndexPosts "2024-01-01 00:00:00" cexBlogPosts := by
  decide

/-- **C5 amended.** Every post shown by the blog list view is a stored post
satisfying `status = published ∧ (publish_at IS NULL ∨ publish_at ≤ now)`;
whenever at most 200 posts are stored the list shows exactly the posts
satisfying that rule; the detail view returns a post iff one with the
requested slug satisfies the rule (404 otherwise); drafts and future-dated
posts never satisfy the rule, past-dated published posts always do. -/
theorem claim_C5_amended (now : String) (posts : List BlogPost) (slug : String) :
    (∀ p ∈ blogIndexPosts now posts, p ∈ posts ∧ publiclyVisible now p = true) ∧
    (posts.length ≤ 200 → ∀ p : BlogPost,
      (p ∈ blogIndexPosts now posts ↔ p ∈ posts ∧ publiclyVisible now p = true)) ∧
    (∀ p, blogPostDetail now posts slug = some p →
      p ∈ posts ∧ p.slug = slug ∧ publiclyVisible now p = true) ∧
    (blogPostDetail now posts slug = none ↔
      ∀ p ∈ posts, ¬(p.slug = slug ∧ publiclyVisible now p = true)) ∧
    (∀ p : BlogPost, p.status ≠ "published" → publiclyVisible now p = false) ∧
    (∀ (p : BlogPost) (d : String), p.publishAt = some d → strLe d now = false →
      publiclyVisible now p = false) ∧
    (∀ p : BlogPost, p.status = "published" →
      (p.publishAt = none ∨ ∃ d, p.publishAt = some d ∧ strLe d now = true) →
      publiclyVisible now p = true) := by
  have hsound : ∀ p ∈ blogIndexPosts now posts, p ∈ posts ∧ publiclyVisible now p = true := by
    intro p hp
    have h1 : p ∈ (posts.filter (publiclyVisible now)).insertionSort blogOrder :=
      (List.take_sublist _ _).subset hp
    have h2 : p ∈ posts.filter (publiclyVisible now) :=
      (List.mem_insertionSort blogOrder).mp h1
    exact List.mem_filter.mp h2
  refine ⟨hsound, ?_, ?_, ?_, ?_, ?_, ?_⟩
  · intro hlen p
    refine ⟨hsound p, ?_⟩
    rintro ⟨hmem, hvis⟩
    have h2 : p ∈ posts.filter (publiclyVisible now) := List.mem_filter.mpr ⟨hmem, hvis⟩
    have h3 : p ∈ (posts.filter (publiclyVisible now)).insertionSort blogOrder :=
      (List.mem_insertionSort blogOrder).mpr h2
    have hle : ((posts.filter (publiclyVisible now)).insertionSort blogOrder).length ≤ 200 :=
      le_trans (le_of_eq (List.length_insertionSort blogOrder _))
        (le_trans (List.length_filter_le _ _) hlen)
    unfold blogIndexPosts
    rw [List.take_of_length_le hle]
    exact h3
  · intro p hp
    have hmem : p ∈ posts.filter (fun q => q.slug == slug && publiclyVisible now q) :=
      List.mem_of_mem_head? (by simp [blogPostDetail] at hp; simp [hp])
    have h3 := List.mem_filter.mp hmem
    have h4 := h3.2
    simp only [Bool.and_eq_true, beq_iff_eq] at h4
    exact ⟨h3.1, h4.1, h4.2⟩
  · unfold blogPostDetail
    rw [List.head?_eq_none_iff, List.filter_eq_nil_iff]
    constructor
    · rintro h p hp ⟨hs, hv⟩
      exact h p hp (by simp [hs, hv])
    · intro h p hp hb
      simp only [Bool.and_eq_true, beq_iff_eq] at hb
      exact h p hp ⟨hb.1, hb.2⟩
  · intro p h
    have hb : (p.status == "published") = false := by simpa using h
    simp [publiclyVisible, hb]
  · intro p d hd hle
    simp [publiclyVisible, hd, hle]
  · intro p hs hdisj
    have hb : (p.status == "published") = true := by simpa using hs
    rcases hdisj with hnone | ⟨d, hd, hdle⟩
    · simp [publiclyVisible, hb, hnone]
    · simp [publiclyVisible, hb, hd, hdle]

/-- Witness for C5 amended: in a three-post store (published past post,
draft, future-dated post) the published one is listed, while the draft and
the future post 404 on the detail view. -/
theorem claim_C5_amended_witness :
    ({ id := 5, title := "P", slug := "s", contentMd := "", status := "published",
       publishAt := none, createdAt := "2020-01-01 00:00:00" } : BlogPost) ∈
      blogIndexPosts "2024-01-01 00:00:00"
        [{ id := 5, title := "P", slug := "s", contentMd := "", status := "published",
           publishAt := none, createdAt := "2020-01-01 00:00:00" },
         { id := 6, title := "D", slug := "d", contentMd := "", status := "draft",
           publishAt := none, createdAt := "2020-01-01 00:00:00" },
         { id := 7, title := "F", slug := "f", contentMd := "", status := "published",
           publishAt := some "2030-01-01 00:00:00", createdAt := "2020-01-01 00:00:00" }] ∧
    blogPostDetail "2024-01-01 00:00:00"
        [{ id := 5, title := "P", slug := "s", contentMd := "", status := "published",
           publishAt := none, createdAt := "2020-01-01 00:00:00" },
         { id := 6, title := "D", slug := "d", contentMd := "", status := "draft",
           publishAt := none, createdAt := "2020-01-01 00:00:00" },
         { id := 7, title := "F", slug := "f", contentMd := "", status := "published",
           publishAt := some "2030-01-01 00:00:00", createdAt := "2020-01-01 00:00:00" }]
        "d" = none ∧
    blogPostDetail "2024-01-01 00:00:00"
        [{ id := 5, title := "P", slug := "s", contentMd := "", status := "published",
           publishAt := none, createdAt := "2020-01-01 00:00:00" },
         { id := 6, title := "D", slug := "d", contentMd := "", status := "draft",
           publishAt := none, createdAt := "2020-01-01 00:00:00" },
         { id := 7, title := "F", slug := "f", contentMd := "", status := "published",
           publishAt := some "2030-01-01 00:00:00", createdAt := "2020-01-01 00:00:00" }]
        "f" = none :=
  ⟨((claim_C5_amended _ _ "d").2.1 (by decide) _).mpr ⟨by decide, by decide⟩,
   (claim_C5_amended _ _ "d").2.2.2.1.mpr (by decide),
   (claim_C5_amended _ _ "f").2.2.2.1.mpr (by decide)⟩

theorem slugChars_false_eq (cs : List Char) :
    slugChars cs false = dashHead cs ++ slugChars cs true := by
  cases cs with
  | nil => rfl
  | cons c cs => by_cases h : c.isAlphanum <;> simp [slugChars, dashHead, h]

theorem slugChars_append_alnum (r cs : List Char)
    (h : ∀ c ∈ r, c.isAlphanum = true) :
    slugChars (r ++ cs) false = r ++ slugChars cs false := by
  induction r with
  | nil => rfl
  | cons a r ih =>
    have ha := h a (by simp)
    simp [slugChars, ha, ih (fun c hc => h c (by simp [hc]))]

theorem alnumRuns_nil_iff (cs : List Char) :
    alnumRuns cs = [] ↔ ∀ c ∈ cs, c.isAlphanum = false := by
  induction cs using alnumRuns.induct with
  | case1 => simp [alnumRuns]
  | case2 c cs h ih =>
    constructor
    · intro habs
      exact absurd habs (by simp [alnumRuns, h])
    · intro hall
      exact absurd (hall c (by simp)) (by simp [h])
  | case3 c cs h ih =>
    have hc : c.isAlphanum = false := by simpa using h
    simp [alnumRuns, hc, ih]

theorem alnumRuns_runs (cs : List Char) :
    ∀ r ∈ alnumRuns cs, r ≠ [] ∧ ∀ x ∈ r, x.isAlphanum = true := by
  induction cs using alnumRuns.induct with
  | case1 => simp [alnumRuns]
  | case2 c cs h ih =>
    intro r hr
    rw [show alnumRuns (c :: cs)
        = (c :: cs.takeWhile Char.isAlphanum) :: alnumRuns (cs.dropWhile Char.isAlphanum)
      from by simp [alnumRuns, h]] at hr
    rcases List.mem_cons.mp hr with rfl | hr
    · refine ⟨by simp, ?_⟩
      intro x hx
      rcases List.mem_cons.mp hx with rfl | hx
      · exact h
      · exact List.mem_takeWhile_imp hx
    · exact ih r hr
  | case3 c cs h ih =>
    have hc : c.isAlphanum = false := by simpa using h
    intro r hr
    rw [show alnumRuns (c :: cs) = alnumRuns cs from by simp [alnumRuns, hc]] at hr
    exact ih r hr

theorem lastIsAlnum_cons (c : Char) (cs : List Char) (h : cs ≠ []) :
    lastIsAlnum (c :: cs) = lastIsAlnum cs := by
  cases cs with
  | nil => exact absurd rfl h
  | cons d ds => rfl

theorem lastIsAlnum_append (l1 l2 : List Char) (h : l2 ≠ []) :
    lastIsAlnum (l1 ++ l2) = lastIsAlnum l2 := by
  induction l1 with
  | nil => rfl
  | cons a l1 ih =>
    have hne : l1 ++ l2 ≠ [] := by simp [h]
    rw [List.cons_append, lastIsAlnum_cons a _ hne, ih]

theorem lastIsAlnum_all_alnum (l : List Char) (c : Char) (hc : c.isAlphanum = true)
    (h : ∀ x ∈ l, x.isAlphanum = true) : lastIsAlnum (c :: l) = true := by
  induction l generalizing c with
  | nil => simpa [lastIsAlnum] using hc
  | cons d ds ih =>
    show lastIsAlnum (d :: ds) = true
    exact ih d (h d (by simp)) (fun x hx => h x (by simp [hx]))

theorem lastIsAlnum_all_not (l : List Char) (hne : l ≠ [])
    (h : ∀ x ∈ l, x.isAlphanum = false) : lastIsAlnum l = false := by
  induction l with
  | nil => exact absurd rfl hne
  | cons c cs ih =>
    cases cs with
    | nil => simpa [lastIsAlnum] using h c (by simp)
    | cons d ds =>
      show lastIsAlnum (d :: ds) = false
      exact ih (by simp) (fun x hx => h x (by simp [hx]))

theorem dropWhile_head_false (p : Char → Bool) (l : List Char) (c : Char)
    (cs : List Char) (h : l.dropWhile p = c :: cs) : p c = false := by
  have := List.head?_dropWhile_not p l
  rw [h] at this
  simpa using this

theorem slugChars_true_eq (cs : List Char) :
    slugChars cs true = joinRuns (alnumRuns cs) ++ dashTail cs := by
  induction cs using alnumRuns.induct with
  | case1 => simp [slugChars, alnumRuns, dashTail, joinRuns]
  | case2 c cs h ih =>
    have htake : ∀ x ∈ cs.takeWhile Char.isAlphanum, x.isAlphanum = true :=
      fun x hx => List.mem_takeWhile_imp hx
    have hsplit : cs.takeWhile Char.isAlphanum ++ cs.dropWhile Char.isAlphanum = cs :=
      List.takeWhile_append_dropWhile _ _
    have e1 : slugChars (c :: cs) true = c :: slugChars cs false := by
      simp [slugChars, h]
    have e2 : slugChars cs false
        = cs.takeWhile Char.isAlphanum ++ slugChars (cs.dropWhile Char.isAlphanum) false := by
      conv_lhs => rw [← hsplit]
      exact slugChars_append_alnum _ _ htake
    have eruns : alnumRuns (c :: cs)
        = (c :: cs.takeWhile Char.isAlphanum) :: alnumRuns (cs.dropWhile Char.isAlphanum) := by
      simp [alnumRuns, h]
    cases hdrop : cs.dropWhile Char.isAlphanum with
    | nil =>
      have hcs : cs = cs.takeWhile Char.isAlphanum := by
        conv_lhs => rw [← hsplit]
        rw [hdrop, List.append_nil]
      have hlast : lastIsAlnum (c :: cs) = true := by
        apply lastIsAlnum_all_alnum _ _ h
        intro x hx
        exact htake x (hcs ▸ hx)
      rw [e1, e2, hdrop, eruns, hdrop]
      simp [slugChars, joinRuns, dashTail, hlast, alnumRuns]
    | cons d ds =>
      have hd : d.isAlphanum = false := dropWhile_head_false _ _ _ _ hdrop
      have hDne : cs.dropWhile Char.isAlphanum ≠ [] := by simp [hdrop]
      have e3 : slugChars (cs.dropWhile Char.isAlphanum) false
          = '-' :: slugChars (cs.dropWhile Char.isAlphanum) true := by
        rw [hdrop]
        simp [slugChars, hd]
      have hcons : c :: cs = (c :: cs.takeWhile Char.isAlphanum) ++ cs.dropWhile Char.isAlphanum := by
        simp [hsplit]
      have hlast2 : lastIsAlnum (c :: cs) = lastIsAlnum (cs.dropWhile Char.isAlphanum) := by
        rw [hcons]
        exact lastIsAlnum_append _ _ hDne
      cases hruns : alnumRuns (cs.dropWhile Char.isAlphanum) with
      | nil =>
        have hallnot : ∀ x ∈ cs.dropWhile Char.isAlphanum, x.isAlphanum = false :=
          (alnumRuns_nil_iff _).mp hruns
        have hlast3 : lastIsAlnum (c :: cs) = false := by
          rw [hlast2]
          exact lastIsAlnum_all_not _ hDne hallnot
        have hdt1 : dashTail (c :: cs) = ['-'] := by
          unfold dashTail
          rw [eruns]
          simp [hruns, hlast3]
        have hdt2 : dashTail (cs.dropWhile Char.isAlphanum) = [] := by
          unfold dashTail
          simp [hruns]
        rw [e1, e2, e3, ih, hruns, hdt2, eruns, hruns, hdt1]
        simp [joinRuns]
      | cons r2 rs2 =>
        have hdt : dashTail (c :: cs) = dashTail (cs.dropWhile Char.isAlphanum) := by
          unfold dashTail
          rw [eruns]
          simp only [hruns, hlast2]
          simp
        rw [e1, e2, e3, ih, eruns, hdt]
        rw [hruns]
        simp [joinRuns]
  | case3 c cs h ih =>
    have hc : c.isAlphanum = false := by simpa using h
    have e1 : slugChars (c :: cs) true = slugChars cs true := by
      simp [slugChars, hc]
    have eruns : alnumRuns (c :: cs) = alnumRuns cs := by
      simp [alnumRuns, hc]
    have hdt : dashTail (c :: cs) = dashTail cs := by
      unfold dashTail
      rw [eruns]
      by_cases hr : alnumRuns cs = []
      · simp [hr]
      · have hcsne : cs ≠ [] := by
          intro hnil
          rw [hnil] at hr
          exact hr (by simp [alnumRuns])
        rw [lastIsAlnum_cons c cs hcsne]
    rw [e1, ih, eruns, hdt]


theorem alnum_ne_dash (c : Char) (h : c.isAlphanum = true) : (c == '-') = false := by
  cases hb : c == '-' with
  | false => rfl
  | true =>
    have hcd : c = '-' := by simpa using hb
    rw [hcd] at h
    exact absurd h (by decide)

theorem joinRuns_ne_nil (r : List Char) (rs : List (List Char)) (hr : r ≠ []) :
    joinRuns (r :: rs) ≠ [] := by
  cases rs with
  | nil => simpa [joinRuns] using hr
  | cons r2 rs2 =>
    cases r with
    | nil => exact absurd rfl hr
    | cons a t => simp [joinRuns]

theorem joinRuns_head (a : Char) (r' : List Char) (rs : List (List Char)) :
    (joinRuns ((a :: r') :: rs)).head? = some a := by
  cases rs <;> rfl

theorem joinRuns_getLast_alnum (rs : List (List Char))
    (h : ∀ r ∈ rs, r ≠ [] ∧ ∀ x ∈ r, x.isAlphanum = true) :
    ∀ c, (joinRuns rs).getLast? = some c → c.isAlphanum = true := by
  induction rs with
  | nil =>
    intro c hc
    simp [joinRuns] at hc
  | cons r rs ih =>
    intro c hc
    cases rs with
    | nil =>
      have hmem := List.mem_of_getLast?_eq_some (by simpa [joinRuns] using hc)
      exact (h r (by simp)).2 c hmem
    | cons r2 rs2 =>
      rw [show joinRuns (r :: r2 :: rs2) = r ++ '-' :: joinRuns (r2 :: rs2) from rfl] at hc
      rw [List.getLast?_append] at hc
      have hne : joinRuns (r2 :: rs2) ≠ [] := joinRuns_ne_nil _ _ (h r2 (by simp)).1
      cases hXl : (joinRuns (r2 :: rs2)).getLast? with
      | none => exact absurd (List.getLast?_eq_none_iff.mp hXl) hne
      | some y =>
        have hx : ('-' :: joinRuns (r2 :: rs2)).getLast? = some y := by
          rw [List.getLast?_cons, hXl]
          rfl
        rw [hx] at hc
        simp only [Option.or_some, Option.some.injEq] at hc
        subst hc
        exact ih (fun q hq => h q (by simp [hq])) _ hXl

theorem dashHead_all (cs : List Char) : ∀ x ∈ dashHead cs, x = '-' := by
  unfold dashHead
  cases cs with
  | nil => simp
  | cons c cs' =>
    by_cases h : c.isAlphanum <;> simp [h]

theorem dashTail_all (cs : List Char) : ∀ x ∈ dashTail cs, x = '-' := by
  unfold dashTail
  split
  · simp
  · split <;> simp

theorem stripDashes_sandwich (d m t : List Char)
    (hd : ∀ x ∈ d, x = '-') (ht : ∀ x ∈ t, x = '-') (hm : m ≠ [])
    (hh : ∀ c, m.head? = some c → (c == '-') = false)
    (hl : ∀ c, m.getLast? = some c → (c == '-') = false) :
    stripDashes (d ++ m ++ t) = m := by
  unfold stripDashes
  have h1 : (d ++ m ++ t).dropWhile (fun c => c == '-')
      = (m ++ t).dropWhile (fun c => c == '-') := by
    rw [List.append_assoc]
    exact List.dropWhile_append_of_pos (fun a ha => by simp [hd a ha])
  cases m with
  | nil => exact absurd rfl hm
  | cons a m' =>
    have ha : (a == '-') = false := hh a rfl
    have h2 : ((a :: m') ++ t).dropWhile (fun c => c == '-') = (a :: m') ++ t := by
      rw [List.cons_append]
      exact List.dropWhile_cons_of_neg (by simp [ha])
    rw [h1, h2, List.reverse_append]
    have h3 : (t.reverse ++ (a :: m').reverse).dropWhile (fun c => c == '-')
        = ((a :: m').reverse).dropWhile (fun c => c == '-') :=
      List.dropWhile_append_of_pos (fun x hx => by simp [ht x (List.mem_reverse.mp hx)])
    rw [h3]
    have h4 : ((a :: m').reverse).dropWhile (fun c => c == '-') = (a :: m').reverse := by
      cases hrev : (a :: m').reverse with
      | nil => simp at hrev
      | cons b bs =>
        have hb : (b == '-') = false := by
          apply hl
          rw [← List.head?_reverse, hrev]
          rfl
        exact List.dropWhile_cons_of_neg (by simp [hb])
    rw [h4, List.reverse_reverse]

theorem stripDashes_slugChars (cs : List Char) :
    stripDashes (slugChars cs false) = joinRuns (alnumRuns cs) := by
  rw [slugChars_false_eq, slugChars_true_eq]
  cases hruns : alnumRuns cs with
  | nil =>
    have hdt : dashTail cs = [] := by
      unfold dashTail
      simp [hruns]
    rw [hdt]
    cases cs with
    | nil => rfl
    | cons c cs' =>
      unfold dashHead
      by_cases hca : c.isAlphanum
      · exact absurd hruns (by simp [alnumRuns, hca])
      · simp only [hca, if_false, joinRuns]
        decide
  | cons r rs =>
    have hr : r ≠ [] := (alnumRuns_runs cs r (by rw [hruns]; simp)).1
    have hall : ∀ q ∈ r :: rs, q ≠ [] ∧ ∀ x ∈ q, x.isAlphanum = true := by
      intro q hq
      exact alnumRuns_runs cs q (by rw [hruns]; exact hq)
    rw [← List.append_assoc]
    apply stripDashes_sandwich
    · exact dashHead_all cs
    · exact dashTail_all cs
    · exact joinRuns_ne_nil _ _ hr
    · intro c0 hc0
      cases r with
      | nil => exact absurd rfl hr
      | cons a r' =>
        rw [joinRuns_head] at hc0
        rw [← show a = c0 from by simpa using hc0]
        exact alnum_ne_dash a ((hall (a :: r') (by simp)).2 a (by simp))
    · intro c hc
      exact alnum_ne_dash _ (joinRuns_getLast_alnum _ hall c hc)

theorem slugify_eq_specSlug (v : String) : slugify v = specSlug v := by
  show (if String.mk (stripDashes (slugChars (strLower (strTrim v)).toList false)) = ""
        then "post"
        else String.mk (stripDashes (slugChars (strLower (strTrim v)).toList false)))
      = (if joinRuns (alnumRuns (strLower (strTrim v)).toList) = [] then "post"
         else String.mk (joinRuns (alnumRuns (strLower (strTrim v)).toList)))
  rw [stripDashes_slugChars]
  by_cases h : joinRuns (alnumRuns (strLower (strTrim v)).toList) = []
  · rw [h]
    decide
  · have hne : String.mk (joinRuns (alnumRuns (strLower (strTrim v)).toList)) ≠ "" := by
      intro hc
      exact h (congrArg String.data hc)
    rw [if_neg hne, if_neg h]

/-- **C7.** The stored slug of a post submitted with a title but no slug is
the code's `slugify title`, which equals the spec's description (lowercase,
every maximal non-alphanumeric run collapsed to one hyphen, hyphens trimmed
at the ends, fallback `"post"`); "My Post" and "My Post!!" both map to
`my-post`; when the slug is already taken the handler reports a
duplicate-slug form error and stores nothing. -/
theorem claim_C7 (now contentMd : String) (rawTitle rawSlug rawStatus : Option String)
    (publishAt : Option String) (posts : List BlogPost) (title : String)
    (htitle : cleanStr rawTitle = some title) (hslug : cleanStr rawSlug = none) :
    (∀ v : String, slugify v = specSlug v) ∧
    slugify "My Post" = "my-post" ∧
    slugify "My Post!!" = "my-post" ∧
    ((∃ p ∈ posts, p.slug = slugify title) →
      adminPostNew now rawTitle rawSlug contentMd rawStatus publishAt posts
        = (.duplicateSlug (slugify title), posts)) ∧
    ((∀ p ∈ posts, p.slug ≠ slugify title) →
      ∃ newPost, adminPostNew now rawTitle rawSlug contentMd rawStatus publishAt posts
          = (.created (slugify title), posts ++ [newPost]) ∧
        newPost.slug = slugify title ∧ newPost.title = title) := by
  refine ⟨slugify_eq_specSlug, by decide, by decide, ?_, ?_⟩
  · intro hdup
    have hany : posts.any (fun p => p.slug == slugify title) = true := by
      rw [List.any_eq_true]
      obtain ⟨p, hp, he⟩ := hdup
      exact ⟨p, hp, by simpa using he⟩
    simp [adminPostNew, htitle, hslug, hany]
  · intro hnodup
    cases hpa : posts.any (fun p => p.slug == slugify title) with
    | true =>
      obtain ⟨p, hp, he⟩ := List.any_eq_true.mp hpa
      exact absurd (by simpa using he) (hnodup p hp)
    | false =>
      refine ⟨{ id := nextPostId posts, title := title, slug := slugify title,
                contentMd := contentMd, status := (cleanStr rawStatus).getD "draft",
                publishAt := publishAt, createdAt := now }, ?_, rfl, rfl⟩
      simp [adminPostNew, htitle, hslug, hpa]

/-- Witness for C7: creating "My Post" in an empty store succeeds with slug
`my-post`; creating "My Post!!" once `my-post` exists fails with the
duplicate-slug error and stores nothing. -/
theorem claim_C7_witness :
    (∃ newPost, adminPostNew "2024-01-01 00:00:00" (some "My Post") none ""
          (some "draft") none [] = (.created "my-post", [] ++ [newPost]) ∧
        newPost.slug = "my-post" ∧ newPost.title = "My Post") ∧
    adminPostNew "2024-01-01 00:00:00" (some "My Post!!") none "" (some "draft") none
        [{ id := 1, title := "My Post", slug := "my-post", contentMd := "",
           status := "draft", publishAt := none, createdAt := "2024-01-01 00:00:00" }]
      = (.duplicateSlug "my-post",
         [{ id := 1, title := "My Post", slug := "my-post", contentMd := "",
            status := "draft", publishAt := none, createdAt := "2024-01-01 00:00:00" }]) :=
  ⟨(claim_C7 "2024-01-01 00:00:00" "" (some "My Post") none (some "draft") none []
      "My Post" (by decide) (by decide)).2.2.2.2 (by decide),
   (claim_C7 "2024-01-01 00:00:00" "" (some "My Post!!") none (some "draft") none
      [{ id := 1, title := "My Post", slug := "my-post", contentMd := "",
         status := "draft", publishAt := none, createdAt := "2024-01-01 00:00:00" }]
      "My Post!!" (by decide) (by decide)).2.2.2.1 (by decide)⟩

/- #### Table-creation helpers -/

theorem createBareTable_of_mem {t : String} {s : Store} (h : t ∈ s.tables) :
    createBareTable t s = s := by
  simp [createBareTable, h]

theorem createBareTable_mem (t x : String) (s : Store) :
    x ∈ (createBareTable t s).tables ↔ x ∈ s.tables ∨ x = t := by
  by_cases h : t ∈ s.tables
  · simp only [createBareTable, if_pos h]
    constructor
    · exact Or.inl
    · rintro (hx | rfl)
      · exact hx
      · exact h
  · simp [createBareTable, h]

theorem createBareTable_fields (t : String) (s : Store) :
    (createBareTable t s).version = s.version ∧
    (createBareTable t s).placeCols = s.placeCols ∧
    (createBareTable t s).places = s.places ∧
    (createBareTable t s).settings = s.settings ∧
    (createBareTable t s).adminUsers = s.adminUsers ∧
    (createBareTable t s).users = s.users ∧
    (createBareTable t s).accessRules = s.accessRules := by
  by_cases h : t ∈ s.tables <;> simp [createBareTable, h]

theorem createSiteSettingTable_of_mem {s : Store} (h : "site_setting" ∈ s.tables) :
    createSiteSettingTable s = s := by
  simp [createSiteSettingTable, h]

theorem createSiteSettingTable_mem (x : String) (s : Store) :
    x ∈ (createSiteSettingTable s).tables ↔ x ∈ s.tables ∨ x = "site_setting" := by
  by_cases h : "site_setting" ∈ s.tables
  · simp only [createSiteSettingTable, if_pos h]
    constructor
    · exact Or.inl
    · rintro (hx | rfl)
      · exact hx
      · exact h
  · simp [createSiteSettingTable, h]

theorem createSiteSettingTable_fields (s : Store) :
    (createSiteSettingTable s).version = s.version ∧
    (createSiteSettingTable s).placeCols = s.placeCols ∧
    (createSiteSettingTable s).places = s.places ∧
    (createSiteSettingTable s).adminUsers = s.adminUsers ∧
    (createSiteSettingTable s).users = s.users ∧
    (createSiteSettingTable s).accessRules = s.accessRules := by
  by_cases h : "site_setting" ∈ s.tables <;> simp [createSiteSettingTable, h]

theorem createUserTable_of_mem {s : Store} (h : "user" ∈ s.tables) :
    createUserTable s = s := by
  simp [createUserTable, h]

theorem createUserTable_mem (x : String) (s : Store) :
    x ∈ (createUserTable s).tables ↔ x ∈ s.tables ∨ x = "user" := by
  by_cases h : "user" ∈ s.tables
  · simp only [createUserTable, if_pos h]
    constructor
    · exact Or.inl
    · rintro (hx | rfl)
      · exact hx
      · exact h
  · simp [createUserTable, h]

theorem createUserTable_fields (s : Store) :
    (createUserTable s).version = s.version ∧
    (createUserTable s).placeCols = s.placeCols ∧
    (createUserTable s).places = s.places ∧
    (createUserTable s).settings = s.settings ∧
    (createUserTable s).adminUsers = s.adminUsers ∧
    (createUserTable s).accessRules = s.accessRules := by
  by_cases h : "user" ∈ s.tables <;> simp [createUserTable, h]

theorem createAccessRuleTable_of_mem {s : Store} (h : "access_rule" ∈ s.tables) :
    createAccessRuleTable s = s := by
  simp [createAccessRuleTable, h]

theorem createAccessRuleTable_mem (x : String) (s : Store) :
    x ∈ (createAccessRuleTable s).tables ↔ x ∈ s.tables ∨ x = "access_rule" := by
  by_cases h : "access_rule" ∈ s.tables
  · simp only [createAccessRuleTable, if_pos h]
    constructor
    · exact Or.inl
    · rintro (hx | rfl)
      · exact hx
      · exact h
  · simp [createAccessRuleTable, h]

theorem createAccessRuleTable_fields (s : Store) :
    (createAccessRuleTable s).version = s.version ∧
    (createAccessRuleTable s).placeCols = s.placeCols ∧
    (createAccessRuleTable s).places = s.places ∧
    (createAccessRuleTable s).settings = s.settings ∧
    (createAccessRuleTable s).adminUsers = s.adminUsers ∧
    (createAccessRuleTable s).users = s.users := by
  by_cases h : "access_rule" ∈ s.tables <;> simp [createAccessRuleTable, h]


/- #### INSERT OR IGNORE folds -/

theorem insertSettingIfAbsent_append (st : List (String × Option String))
    (k : String) (v : Option String) :
    ∃ l, insertSettingIfAbsent st k v = st ++ l := by
  by_cases h : st.any (fun kv => kv.1 == k)
  · exact ⟨[], by simp [insertSettingIfAbsent, h]⟩
  · exact ⟨[(k, v)], by simp [insertSettingIfAbsent, h]⟩

theorem insertSettingIfAbsent_haskey (st : List (String × Option String))
    (k : String) (v : Option String) :
    (insertSettingIfAbsent st k v).any (fun kv => kv.1 == k) = true := by
  by_cases h : st.any (fun kv => kv.1 == k) <;> simp [insertSettingIfAbsent, h]

theorem insertSettingIfAbsent_any_mono (st : List (String × Option String))
    (k : String) (v : Option String) (p : String × Option String → Bool)
    (h : st.any p = true) :
    (insertSettingIfAbsent st k v).any p = true := by
  by_cases hk : st.any (fun kv => kv.1 == k) <;> simp [insertSettingIfAbsent, hk, h]

theorem insertSettingIfAbsent_skip (st : List (String × Option String))
    (k : String) (v : Option String) (h : st.any (fun kv => kv.1 == k) = true) :
    insertSettingIfAbsent st k v = st := by
  simp [insertSettingIfAbsent, h]

theorem settings_fold_append (keys : List String)
    (st : List (String × Option String)) :
    ∃ l, keys.foldl (fun acc k => insertSettingIfAbsent acc k none) st = st ++ l := by
  induction keys generalizing st with
  | nil => exact ⟨[], by simp⟩
  | cons k keys ih =>
    obtain ⟨l1, h1⟩ := insertSettingIfAbsent_append st k none
    obtain ⟨l2, h2⟩ := ih (insertSettingIfAbsent st k none)
    refine ⟨l1 ++ l2, ?_⟩
    rw [List.foldl_cons, h2, h1, List.append_assoc]

theorem settings_fold_any_mono (keys : List String)
    (st : List (String × Option String)) (p : String × Option String → Bool)
    (h : st.any p = true) :
    (keys.foldl (fun acc k => insertSettingIfAbsent acc k none) st).any p = true := by
  induction keys generalizing st with
  | nil => simpa using h
  | cons k keys ih =>
    exact ih _ (insertSettingIfAbsent_any_mono st k none p h)

theorem settings_fold_haskeys (keys : List String)
    (st : List (String × Option String)) :
    ∀ k ∈ keys,
      (keys.foldl (fun acc k => insertSettingIfAbsent acc k none) st).any
        (fun kv => kv.1 == k) = true := by
  induction keys generalizing st with
  | nil => simp
  | cons k0 keys ih =>
    intro k hk
    rcases List.mem_cons.mp hk with rfl | hk
    · exact settings_fold_any_mono keys _ _ (insertSettingIfAbsent_haskey st k none)
    · exact ih _ k hk

theorem settings_fold_skip (keys : List String)
    (st : List (String × Option String))
    (h : ∀ k ∈ keys, st.any (fun kv => kv.1 == k) = true) :
    keys.foldl (fun acc k => insertSettingIfAbsent acc k none) st = st := by
  induction keys with
  | nil => rfl
  | cons k keys ih =>
    have hk := h k (by simp)
    rw [List.foldl_cons, insertSettingIfAbsent_skip st k none hk]
    exact ih (fun q hq => h q (by simp [hq]))

theorem insertUserIfAbsent_append (now : String) (us : List MigratedUser)
    (row : AdminUserRow) :
    ∃ l, insertUserIfAbsent now us row = us ++ l := by
  by_cases h : us.any (fun u => u.email == row.username)
  · exact ⟨[], by simp [insertUserIfAbsent, h]⟩
  · exact ⟨[{ email := row.username, passwordHash := row.passwordHash,
              role := "admin", createdAt := row.createdAt.getD now }],
      by simp [insertUserIfAbsent, h]⟩

theorem insertUserIfAbsent_has (now : String) (us : List MigratedUser)
    (row : AdminUserRow) :
    (insertUserIfAbsent now us row).any (fun u => u.email == row.username) = true := by
  by_cases h : us.any (fun u => u.email == row.username) <;>
    simp [insertUserIfAbsent, h]

theorem insertUserIfAbsent_any_mono (now : String) (us : List MigratedUser)
    (row : AdminUserRow) (p : MigratedUser → Bool) (h : us.any p = true) :
    (insertUserIfAbsent now us row).any p = true := by
  by_cases hk : us.any (fun u => u.email == row.username) <;>
    simp [insertUserIfAbsent, hk, h]

theorem insertUserIfAbsent_skip (now : String) (us : List MigratedUser)
    (row : AdminUserRow) (h : us.any (fun u => u.email == row.username) = true) :
    insertUserIfAbsent now us row = us := by
  simp [insertUserIfAbsent, h]

theorem users_fold_append (now : String) (rows : List AdminUserRow)
    (us : List MigratedUser) :
    ∃ l, rows.foldl (insertUserIfAbsent now) us = us ++ l := by
  induction rows generalizing us with
  | nil => exact ⟨[], by simp⟩
  | cons row rows ih =>
    obtain ⟨l1, h1⟩ := insertUserIfAbsent_append now us row
    obtain ⟨l2, h2⟩ := ih (insertUserIfAbsent now us row)
    refine ⟨l1 ++ l2, ?_⟩
    rw [List.foldl_cons, h2, h1, List.append_assoc]

theorem users_fold_any_mono (now : String) (rows : List AdminUserRow)
    (us : List MigratedUser) (p : MigratedUser → Bool) (h : us.any p = true) :
    (rows.foldl (insertUserIfAbsent now) us).any p = true := by
  induction rows generalizing us with
  | nil => simpa using h
  | cons row rows ih =>
    exact ih _ (insertUserIfAbsent_any_mono now us row p h)

theorem users_fold_has (now : String) (rows : List AdminUserRow)
    (us : List MigratedUser) :
    ∀ row ∈ rows,
      (rows.foldl (insertUserIfAbsent now) us).any
        (fun u => u.email == row.username) = true := by
  induction rows generalizing us with
  | nil => simp
  | cons r0 rows ih =>
    intro row hrow
    rcases List.mem_cons.mp hrow with rfl | hrow
    · exact users_fold_any_mono now rows _ _ (insertUserIfAbsent_has now us row)
    · exact ih _ row hrow

theorem users_fold_skip (now : String) (rows : List AdminUserRow)
    (us : List MigratedUser)
    (h : ∀ row ∈ rows, us.any (fun u => u.email == row.username) = true) :
    rows.foldl (insertUserIfAbsent now) us = us := by
  induction rows with
  | nil => rfl
  | cons row rows ih =>
    rw [List.foldl_cons, insertUserIfAbsent_skip now us row (h row (by simp))]
    exact ih (fun q hq => h q (by simp [hq]))

theorem insertRuleIfAbsent_append (rules : List (String × Bool)) (f : String) :
    ∃ l, insertRuleIfAbsent rules f = rules ++ l := by
  by_cases h : rules.any (fun kv => kv.1 == f)
  · exact ⟨[], by simp [insertRuleIfAbsent, h]⟩
  · exact ⟨[(f, true)], by simp [insertRuleIfAbsent, h]⟩

theorem insertRuleIfAbsent_has (rules : List (String × Bool)) (f : String) :
    (insertRuleIfAbsent rules f).any (fun kv => kv.1 == f) = true := by
  by_cases h : rules.any (fun kv => kv.1 == f) <;> simp [insertRuleIfAbsent, h]

theorem insertRuleIfAbsent_any_mono (rules : List (String × Bool)) (f : String)
    (p : String × Bool → Bool) (h : rules.any p = true) :
    (insertRuleIfAbsent rules f).any p = true := by
  by_cases hk : rules.any (fun kv => kv.1 == f) <;> simp [insertRuleIfAbsent, hk, h]

theorem insertRuleIfAbsent_skip (rules : List (String × Bool)) (f : String)
    (h : rules.any (fun kv => kv.1 == f) = true) :
    insertRuleIfAbsent rules f = rules := by
  simp [insertRuleIfAbsent, h]

theorem rules_fold_append (fs : List String) (rules : List (String × Bool)) :
    ∃ l, fs.foldl insertRuleIfAbsent rules = rules ++ l := by
  induction fs generalizing rules with
  | nil => exact ⟨[], by simp⟩
  | cons f fs ih =>
    obtain ⟨l1, h1⟩ := insertRuleIfAbsent_append rules f
    obtain ⟨l2, h2⟩ := ih (insertRuleIfAbsent rules f)
    refine ⟨l1 ++ l2, ?_⟩
    rw [List.foldl_cons, h2, h1, List.append_assoc]

theorem rules_fold_any_mono (fs : List String) (rules : List (String × Bool))
    (p : String × Bool → Bool) (h : rules.any p = true) :
    (fs.foldl insertRuleIfAbsent rules).any p = true := by
  induction fs generalizing rules with
  | nil => simpa using h
  | cons f fs ih =>
    exact ih _ (insertRuleIfAbsent_any_mono rules f p h)

theorem rules_fold_has (fs : List String) (rules : List (String × Bool)) :
    ∀ f ∈ fs, (fs.foldl insertRuleIfAbsent rules).any (fun kv => kv.1 == f) = true := by
  induction fs generalizing rules with
  | nil => simp
  | cons f0 fs ih =>
    intro f hf
    rcases List.mem_cons.mp hf with rfl | hf
    · exact rules_fold_any_mono fs _ _ (insertRuleIfAbsent_has rules f)
    · exact ih _ f hf

theorem rules_fold_skip (fs : List String) (rules : List (String × Bool))
    (h : ∀ f ∈ fs, rules.any (fun kv => kv.1 == f) = true) :
    fs.foldl insertRuleIfAbsent rules = rules := by
  induction fs with
  | nil => rfl
  | cons f fs ih =>
    rw [List.foldl_cons, insertRuleIfAbsent_skip rules f (h f (by simp))]
    exact ih (fun q hq => h q (by simp [hq]))



/- #### Per-step facts -/

theorem clearPlaceCol_name (c : String) (r : PlaceRow) :
    (clearPlaceCol c r).name = r.name := by
  unfold clearPlaceCol
  split_ifs <;> rfl

theorem backfillPlace_name (r : PlaceRow) : (backfillPlace r).name = r.name := rfl

theorem map_name_of (f : PlaceRow → PlaceRow) (h : ∀ r, (f r).name = r.name)
    (l : List PlaceRow) : (l.map f).map PlaceRow.name = l.map PlaceRow.name := by
  induction l with
  | nil => rfl
  | cons r l ih => simp [h, ih]

theorem step0_error (s : Store) :
    step0 s = .error "You can only execute one statement at a time." := rfl

theorem step1_version (s : Store) : (step1 s).version = 2 := rfl

theorem step1_mem (x : String) (s : Store) :
    x ∈ (step1 s).tables ↔ x ∈ s.tables ∨ x = "site_setting" := by
  show x ∈ (createSiteSettingTable s).tables ↔ _
  exact createSiteSettingTable_mem x s

theorem step1_other_fields (s : Store) :
    (step1 s).placeCols = s.placeCols ∧ (step1 s).places = s.places ∧
      (step1 s).adminUsers = s.adminUsers ∧ (step1 s).users = s.users ∧
      (step1 s).accessRules = s.accessRules := by
  refine ⟨?_, ?_, ?_, ?_, ?_⟩ <;>
    (simp only [step1, createSiteSettingTable]
     split_ifs <;> rfl)

theorem step1_settings_append (s : Store) (h : "site_setting" ∈ s.tables) :
    ∃ l, (step1 s).settings = s.settings ++ l := by
  show ∃ l, insertSettingIfAbsent
      (insertSettingIfAbsent (createSiteSettingTable s).settings "contact_email" none)
      "contact_phone" none = s.settings ++ l
  rw [createSiteSettingTable_of_mem h]
  obtain ⟨l1, h1⟩ := insertSettingIfAbsent_append s.settings "contact_email" none
  obtain ⟨l2, h2⟩ := insertSettingIfAbsent_append
    (insertSettingIfAbsent s.settings "contact_email" none) "contact_phone" none
  exact ⟨l1 ++ l2, by rw [h2, h1, List.append_assoc]⟩

theorem step1_haskeys (s : Store) :
    (step1 s).settings.any (fun kv => kv.1 == "contact_email") = true ∧
      (step1 s).settings.any (fun kv => kv.1 == "contact_phone") = true := by
  constructor
  · exact insertSettingIfAbsent_any_mono _ _ _ _ (insertSettingIfAbsent_haskey _ _ _)
  · exact insertSettingIfAbsent_haskey _ _ _

theorem addcols_fold (l cols : List String) (s : Store) :
    ((l.foldl (addMissingCol cols) s).version = s.version) ∧
    ((l.foldl (addMissingCol cols) s).tables = s.tables) ∧
    ((l.foldl (addMissingCol cols) s).settings = s.settings) ∧
    ((l.foldl (addMissingCol cols) s).adminUsers = s.adminUsers) ∧
    ((l.foldl (addMissingCol cols) s).users = s.users) ∧
    ((l.foldl (addMissingCol cols) s).accessRules = s.accessRules) ∧
    (∀ c ∈ s.placeCols, c ∈ (l.foldl (addMissingCol cols) s).placeCols) ∧
    ((l.foldl (addMissingCol cols) s).places.length = s.places.length) ∧
    ((l.foldl (addMissingCol cols) s).places.map PlaceRow.name
      = s.places.map PlaceRow.name) := by
  induction l generalizing s with
  | nil => simp
  | cons c0 rest ih =>
    simp only [List.foldl_cons]
    by_cases h : c0 ∈ cols
    · simpa [addMissingCol, h] using ih s
    · obtain ⟨hv, ht, hs, ha, hu, hr, hmono, hlen, hname⟩ :=
        ih ({ s with placeCols := s.placeCols ++ [c0],
                     places := s.places.map (clearPlaceCol c0) })
      simp only [addMissingCol, if_neg h]
      refine ⟨hv, ht, hs, ha, hu, hr, ?_, ?_, ?_⟩
      · intro c hc
        exact hmono c (by simp [hc])
      · rw [hlen]
        simp
      · rw [hname]
        exact map_name_of _ (clearPlaceCol_name c0) _

theorem addcols_covers (l cols : List String) (s : Store)
    (hsub : ∀ c ∈ cols, c ∈ s.placeCols) :
    ∀ c ∈ l, c ∈ (l.foldl (addMissingCol cols) s).placeCols := by
  induction l generalizing s with
  | nil => simp
  | cons c0 rest ih =>
    intro c hc
    simp only [List.foldl_cons]
    have hmono := (addcols_fold rest cols (addMissingCol cols s c0)).2.2.2.2.2.2.1
    rcases List.mem_cons.mp hc with rfl | hc
    · by_cases h : c ∈ cols
      · exact hmono c (by simp [addMissingCol, h, hsub c h])
      · exact hmono c (by simp [addMissingCol, h])
    · have hsub2 : ∀ x ∈ cols, x ∈ (addMissingCol cols s c0).placeCols := by
        intro x hx
        by_cases h : c0 ∈ cols <;> simp [addMissingCol, h, hsub x hx]
      exact ih _ hsub2 c hc

theorem step2body_version (s : Store) : (step2body s).version = 3 := rfl

theorem step2body_facts (s : Store) :
    ((step2body s).tables = s.tables) ∧
    ((step2body s).settings = s.settings) ∧
    ((step2body s).adminUsers = s.adminUsers) ∧
    ((step2body s).users = s.users) ∧
    ((step2body s).accessRules = s.accessRules) ∧
    (∀ c ∈ s.placeCols, c ∈ (step2body s).placeCols) ∧
    ((step2body s).places.length = s.places.length) ∧
    ((step2body s).places.map PlaceRow.name = s.places.map PlaceRow.name) ∧
    (∀ c ∈ newPlaceCols, c ∈ (step2body s).placeCols) := by
  obtain ⟨hv, ht, hs, ha, hu, hr, hmono, hlen, hname⟩ :=
    addcols_fold newPlaceCols s.placeCols s
  have hcov := addcols_covers newPlaceCols s.placeCols s (fun c hc => hc)
  simp only [step2body]
  refine ⟨ht, hs, ha, hu, hr, hmono, ?_, ?_, hcov⟩
  · rw [List.length_map, hlen]
  · rw [map_name_of _ backfillPlace_name, hname]

theorem step2_of_mem (s : Store) (h : "place" ∈ s.tables) :
    step2 s = .ok (step2body s) := by
  simp [step2, h]

theorem step2_ok_inv (s u : Store) (h : step2 s = .ok u) :
    "place" ∈ s.tables ∧ u = step2body s := by
  by_cases hp : "place" ∈ s.tables
  · rw [step2_of_mem s hp] at h
    cases h
    exact ⟨hp, rfl⟩
  · simp [step2, hp] at h

theorem step3body_version (s : Store) : (step3body s).version = 4 := rfl

theorem step3body_mem (x : String) (s : Store) :
    x ∈ (step3body s).tables ↔
      x ∈ s.tables ∨ x = "blog_post" ∨ x = "contact_message" := by
  show x ∈ (createBareTable "contact_message" (createBareTable "blog_post" s)).tables ↔ _
  rw [createBareTable_mem, createBareTable_mem]
  tauto

theorem step3body_other_fields (s : Store) :
    (step3body s).placeCols = s.placeCols ∧ (step3body s).places = s.places ∧
      (step3body s).adminUsers = s.adminUsers ∧ (step3body s).users = s.users ∧
      (step3body s).accessRules = s.accessRules := by
  refine ⟨?_, ?_, ?_, ?_, ?_⟩ <;>
    (simp only [step3body, createBareTable]
     split_ifs <;> rfl)

theorem step3body_settings_append (s : Store) :
    ∃ l, (step3body s).settings = s.settings ++ l := by
  simp only [step3body]
  rw [(createBareTable_fields _ _).2.2.2.1, (createBareTable_fields _ _).2.2.2.1]
  exact settings_fold_append _ _

theorem step3body_haskeys (s : Store) :
    ∀ k ∈ step3Keys,
      (step3body s).settings.any (fun kv => kv.1 == k) = true := by
  intro k hk
  simp only [step3body]
  exact settings_fold_haskeys step3Keys _ k hk

theorem step3_of_mem (s : Store) (h : "site_setting" ∈ s.tables) :
    step3 s = .ok (step3body s) := by
  have hmem : "site_setting" ∈
      (createBareTable "contact_message" (createBareTable "blog_post" s)).tables := by
    rw [createBareTable_mem, createBareTable_mem]
    exact Or.inl (Or.inl h)
  simp [step3, hmem]

theorem step3_ok_inv (s u : Store) (h : step3 s = .ok u) :
    "site_setting" ∈ s.tables ∧ u = step3body s := by
  by_cases hp : "site_setting" ∈ s.tables
  · rw [step3_of_mem s hp] at h
    cases h
    exact ⟨hp, rfl⟩
  · have hmem : "site_setting" ∉
        (createBareTable "contact_message" (createBareTable "blog_post" s)).tables := by
      rw [createBareTable_mem, createBareTable_mem]
      rintro ((hx | hx) | hx)
      · exact hp hx
      · exact absurd hx (by decide)
      · exact absurd hx (by decide)
    simp [step3, hmem] at h

theorem step4_version (now : String) (s : Store) : (step4 now s).version = 5 := rfl

theorem step4_mem (now : String) (x : String) (s : Store) :
    x ∈ (step4 now s).tables ↔ x ∈ s.tables ∨ x = "user" ∨ x = "access_rule" := by
  show x ∈ (createAccessRuleTable (createUserTable s)).tables ↔ _
  rw [createAccessRuleTable_mem, createUserTable_mem]
  tauto

theorem step4_other_fields (now : String) (s : Store) :
    (step4 now s).placeCols = s.placeCols ∧ (step4 now s).places = s.places ∧
      (step4 now s).settings = s.settings ∧
      (step4 now s).adminUsers = s.adminUsers := by
  refine ⟨?_, ?_, ?_, ?_⟩ <;>
    (simp only [step4, createAccessRuleTable, createUserTable]
     split_ifs <;> rfl)

theorem step4_users_append (now : String) (s : Store) (h : "user" ∈ s.tables) :
    ∃ l, (step4 now s).users = s.users ++ l := by
  have h1 : (createAccessRuleTable (createUserTable s)).users = s.users := by
    rw [createUserTable_of_mem h]
    exact (createAccessRuleTable_fields s).2.2.2.2.2
  simp only [step4]
  rw [h1]
  exact users_fold_append now _ s.users

theorem step4_rules_append (now : String) (s : Store) (h : "access_rule" ∈ s.tables) :
    ∃ l, (step4 now s).accessRules = s.accessRules ++ l := by
  have hmem : "access_rule" ∈ (createUserTable s).tables := by
    rw [createUserTable_mem]
    exact Or.inl h
  have h1 : (createAccessRuleTable (createUserTable s)).accessRules = s.accessRules := by
    rw [createAccessRuleTable_of_mem hmem]
    exact (createUserTable_fields s).2.2.2.2.2
  simp only [step4]
  rw [h1]
  exact rules_fold_append _ _



/- #### The upgrade loop -/

theorem upgradeLoop_succ (now : String) (fuel : Nat) (s : Store) :
    upgradeLoop now (fuel + 1) s =
      if s.version < latestVersion then
        (match stepOf now s with
         | .ok s1 => upgradeLoop now fuel s1
         | .error e => .error e)
      else .ok s := rfl

theorem upgradeLoop_ge (now : String) (fuel : Nat) (s : Store)
    (h : latestVersion ≤ s.version) : upgradeLoop now fuel s = .ok s := by
  cases fuel with
  | zero => rfl
  | succ n =>
    rw [upgradeLoop_succ, if_neg (by simp only [latestVersion] at h ⊢; omega)]

theorem upgradeLoop_step (now : String) (fuel : Nat) (s : Store)
    (h : s.version < latestVersion) :
    upgradeLoop now (fuel + 1) s =
      (match stepOf now s with
       | .ok s1 => upgradeLoop now fuel s1
       | .error e => .error e) := by
  rw [upgradeLoop_succ, if_pos h]

theorem stepOf_at0 (now : String) (s : Store) (h : s.version = 0) :
    stepOf now s = .error "You can only execute one statement at a time." := by
  simp [stepOf, h, step0]

theorem stepOf_at1 (now : String) (s : Store) (h : s.version = 1) :
    stepOf now s = .ok (step1 s) := by
  simp [stepOf, h]

theorem stepOf_at2 (now : String) (s : Store) (h : s.version = 2) :
    stepOf now s = step2 s := by
  simp [stepOf, h]

theorem stepOf_at3 (now : String) (s : Store) (h : s.version = 3) :
    stepOf now s = step3 s := by
  simp [stepOf, h]

theorem stepOf_at4 (now : String) (s : Store) (h : s.version = 4) :
    stepOf now s = .ok (step4 now s) := by
  simp [stepOf, h]

theorem run_from5 (now : String) (fuel : Nat) (s : Store) (h : s.version = 5) :
    upgradeLoop now fuel s = .ok s :=
  upgradeLoop_ge now fuel s (by rw [h]; decide)

theorem run_from4 (now : String) (fuel : Nat) (s : Store) (h : s.version = 4) :
    upgradeLoop now (fuel + 1) s = .ok (step4 now s) := by
  rw [upgradeLoop_step now fuel s (by rw [h]; decide), stepOf_at4 now s h]
  exact run_from5 now fuel _ (step4_version now s)

theorem run_from3 (now : String) (fuel : Nat) (s : Store) (h : s.version = 3)
    (hsite : "site_setting" ∈ s.tables) :
    upgradeLoop now (fuel + 2) s = .ok (step4 now (step3body s)) := by
  rw [show fuel + 2 = (fuel + 1) + 1 from rfl,
    upgradeLoop_step now (fuel + 1) s (by rw [h]; decide), stepOf_at3 now s h,
    step3_of_mem s hsite]
  exact run_from4 now fuel _ (step3body_version s)

theorem run_from2 (now : String) (fuel : Nat) (s : Store) (h : s.version = 2)
    (hplace : "place" ∈ s.tables) (hsite : "site_setting" ∈ s.tables) :
    upgradeLoop now (fuel + 3) s = .ok (step4 now (step3body (step2body s))) := by
  rw [show fuel + 3 = (fuel + 2) + 1 from rfl,
    upgradeLoop_step now (fuel + 2) s (by rw [h]; decide), stepOf_at2 now s h,
    step2_of_mem s hplace]
  exact run_from3 now fuel _ (step2body_version s)
    (by rw [(step2body_facts s).1]; exact hsite)

theorem run_from1 (now : String) (fuel : Nat) (s : Store) (h : s.version = 1)
    (hplace : "place" ∈ s.tables) :
    upgradeLoop now (fuel + 4) s
      = .ok (step4 now (step3body (step2body (step1 s)))) := by
  rw [show fuel + 4 = (fuel + 3) + 1 from rfl,
    upgradeLoop_step now (fuel + 3) s (by rw [h]; decide), stepOf_at1 now s h]
  exact run_from2 now fuel _ (step1_version s)
    ((step1_mem _ _).mpr (Or.inl hplace)) ((step1_mem _ _).mpr (Or.inr rfl))

theorem run_from0 (now : String) (fuel : Nat) (s : Store) (h : s.version = 0) :
    upgradeLoop now (fuel + 1) s
      = .error "You can only execute one statement at a time." := by
  rw [upgradeLoop_step now fuel s (by rw [h]; decide), stepOf_at0 now s h]

/- #### Additivity of the upgrade -/

theorem StoreLe_refl (s : Store) : StoreLe s s :=
  ⟨fun _ hx => hx, fun _ => ⟨fun _ hc => hc, rfl, rfl⟩, fun _ => ⟨[], by simp⟩,
   fun _ => ⟨[], by simp⟩, fun _ => ⟨[], by simp⟩⟩

theorem StoreLe_trans {s t u : Store} (h1 : StoreLe s t) (h2 : StoreLe t u) :
    StoreLe s u := by
  obtain ⟨t1, t2, t3, t4, t5⟩ := h1
  obtain ⟨u1, u2, u3, u4, u5⟩ := h2
  refine ⟨fun x hx => u1 x (t1 x hx), ?_, ?_, ?_, ?_⟩
  · intro hp
    obtain ⟨a1, a2, a3⟩ := t2 hp
    obtain ⟨b1, b2, b3⟩ := u2 (t1 _ hp)
    exact ⟨fun c hc => b1 c (a1 c hc), by rw [b2, a2], by rw [b3, a3]⟩
  · intro hp
    obtain ⟨l1, e1⟩ := t3 hp
    obtain ⟨l2, e2⟩ := u3 (t1 _ hp)
    exact ⟨l1 ++ l2, by rw [e2, e1, List.append_assoc]⟩
  · intro hp
    obtain ⟨l1, e1⟩ := t4 hp
    obtain ⟨l2, e2⟩ := u4 (t1 _ hp)
    exact ⟨l1 ++ l2, by rw [e2, e1, List.append_assoc]⟩
  · intro hp
    obtain ⟨l1, e1⟩ := t5 hp
    obtain ⟨l2, e2⟩ := u5 (t1 _ hp)
    exact ⟨l1 ++ l2, by rw [e2, e1, List.append_assoc]⟩

theorem StoreLe_setVersion (s : Store) (v : Nat) :
    StoreLe s { s with version := v } :=
  ⟨fun _ hx => hx, fun _ => ⟨fun _ hc => hc, rfl, rfl⟩, fun _ => ⟨[], by simp⟩,
   fun _ => ⟨[], by simp⟩, fun _ => ⟨[], by simp⟩⟩

theorem StoreLe_step1 (s : Store) : StoreLe s (step1 s) := by
  obtain ⟨h1, h2, h3, h4, h5⟩ := step1_other_fields s
  refine ⟨fun x hx => (step1_mem x s).mpr (Or.inl hx), ?_, ?_, ?_, ?_⟩
  · intro hp
    exact ⟨fun c hc => by rw [h1]; exact hc, by rw [h2], by rw [h2]⟩
  · exact fun hp => step1_settings_append s hp
  · exact fun _ => ⟨[], by rw [h4, List.append_nil]⟩
  · exact fun _ => ⟨[], by rw [h5, List.append_nil]⟩

theorem StoreLe_step2body (s : Store) : StoreLe s (step2body s) := by
  obtain ⟨ht, hs, ha, hu, hr, hmono, hlen, hname, hcov⟩ := step2body_facts s
  refine ⟨fun x hx => by rw [ht]; exact hx, ?_, ?_, ?_, ?_⟩
  · exact fun _ => ⟨hmono, hlen, hname⟩
  · exact fun _ => ⟨[], by rw [hs, List.append_nil]⟩
  · exact fun _ => ⟨[], by rw [hu, List.append_nil]⟩
  · exact fun _ => ⟨[], by rw [hr, List.append_nil]⟩

theorem StoreLe_step3body (s : Store) : StoreLe s (step3body s) := by
  obtain ⟨h1, h2, h3, h4, h5⟩ := step3body_other_fields s
  refine ⟨fun x hx => (step3body_mem x s).mpr (Or.inl hx), ?_, ?_, ?_, ?_⟩
  · intro hp
    exact ⟨fun c hc => by rw [h1]; exact hc, by rw [h2], by rw [h2]⟩
  · exact fun _ => step3body_settings_append s
  · exact fun _ => ⟨[], by rw [h4, List.append_nil]⟩
  · exact fun _ => ⟨[], by rw [h5, List.append_nil]⟩

theorem StoreLe_step4 (now : String) (s : Store) : StoreLe s (step4 now s) := by
  obtain ⟨h1, h2, h3, h4⟩ := step4_other_fields now s
  refine ⟨fun x hx => (step4_mem now x s).mpr (Or.inl hx), ?_, ?_, ?_, ?_⟩
  · intro hp
    exact ⟨fun c hc => by rw [h1]; exact hc, by rw [h2], by rw [h2]⟩
  · exact fun _ => ⟨[], by rw [h3, List.append_nil]⟩
  · exact fun hp => step4_users_append now s hp
  · exact fun hp => step4_rules_append now s hp



/- #### Rerunning each step is a no-op -/

theorem setVersion_self (s : Store) (v : Nat) (h : s.version = v) :
    { s with version := v } = s := by
  cases s
  simp_all

theorem step1_fixed (t : Store) (hsite : "site_setting" ∈ t.tables)
    (hce : t.settings.any (fun kv => kv.1 == "contact_email") = true)
    (hcp : t.settings.any (fun kv => kv.1 == "contact_phone") = true)
    (hv : t.version = 2) : step1 t = t := by
  cases t
  simp_all [step1, createSiteSettingTable, insertSettingIfAbsent]

theorem step1_idem (s : Store) : step1 (step1 s) = step1 s :=
  step1_fixed _ ((step1_mem _ s).mpr (Or.inr rfl)) (step1_haskeys s).1
    (step1_haskeys s).2 (step1_version s)

theorem coalesce_coalesce (a b : Option String) :
    coalesce (coalesce a b) b = coalesce a b := by
  cases a <;> cases b <;> rfl

theorem backfillPlace_idem (r : PlaceRow) :
    backfillPlace (backfillPlace r) = backfillPlace r := by
  cases r
  simp [backfillPlace, coalesce_coalesce]

theorem map_backfill_idem (l : List PlaceRow) :
    (l.map backfillPlace).map backfillPlace = l.map backfillPlace := by
  induction l with
  | nil => rfl
  | cons r l ih => simp_all [backfillPlace_idem]

theorem addcols_skip (l cols : List String) (s : Store)
    (h : ∀ c ∈ l, c ∈ cols) : l.foldl (addMissingCol cols) s = s := by
  induction l with
  | nil => rfl
  | cons c rest ih =>
    rw [List.foldl_cons, show addMissingCol cols s c = s from by
      simp [addMissingCol, h c (by simp)]]
    exact ih (fun q hq => h q (by simp [hq]))

theorem step2body_fixed (u : Store)
    (hcols : ∀ c ∈ newPlaceCols, c ∈ u.placeCols)
    (hback : u.places.map backfillPlace = u.places)
    (hv : u.version = 3) : step2body u = u := by
  simp only [step2body]
  rw [addcols_skip newPlaceCols u.placeCols u hcols, hback]
  exact setVersion_self u 3 hv

theorem step2_rerun (t u : Store) (h : step2 t = .ok u) : step2 u = .ok u := by
  obtain ⟨hp, rfl⟩ := step2_ok_inv t u h
  have hmem : "place" ∈ (step2body t).tables := by
    rw [(step2body_facts t).1]
    exact hp
  rw [step2_of_mem _ hmem]
  have hback : (step2body t).places.map backfillPlace = (step2body t).places := by
    simp only [step2body]
    exact map_backfill_idem _
  rw [step2body_fixed _ (step2body_facts t).2.2.2.2.2.2.2.2 hback (step2body_version t)]

theorem step3body_fixed (u : Store)
    (hblog : "blog_post" ∈ u.tables) (hcontact : "contact_message" ∈ u.tables)
    (hkeys : ∀ k ∈ step3Keys, u.settings.any (fun kv => kv.1 == k) = true)
    (hv : u.version = 4) : step3body u = u := by
  simp only [step3body]
  rw [createBareTable_of_mem hblog, createBareTable_of_mem hcontact,
    settings_fold_skip step3Keys u.settings hkeys]
  exact setVersion_self u 4 hv

theorem step3_rerun (t u : Store) (h : step3 t = .ok u) : step3 u = .ok u := by
  obtain ⟨hsite, rfl⟩ := step3_ok_inv t u h
  have hmem : "site_setting" ∈ (step3body t).tables :=
    (step3body_mem _ t).mpr (Or.inl hsite)
  rw [step3_of_mem _ hmem]
  rw [step3body_fixed _ ((step3body_mem _ t).mpr (Or.inr (Or.inl rfl)))
    ((step3body_mem _ t).mpr (Or.inr (Or.inr rfl)))
    (step3body_haskeys t) (step3body_version t)]

theorem step4_fixed (now2 : String) (u : Store)
    (huser : "user" ∈ u.tables) (hrule : "access_rule" ∈ u.tables)
    (husers : ∀ row ∈ (if "admin_user" ∈ u.tables then u.adminUsers else []),
      u.users.any (fun x => x.email == row.username) = true)
    (hrules : ∀ f ∈ defaultFeatures,
      u.accessRules.any (fun kv => kv.1 == f) = true)
    (hv : u.version = 5) : step4 now2 u = u := by
  simp only [step4]
  rw [createUserTable_of_mem huser, createAccessRuleTable_of_mem hrule]
  rw [users_fold_skip now2 _ _ husers, rules_fold_skip _ _ hrules]
  exact setVersion_self u 5 hv

theorem step4_rerun (now now2 : String) (s : Store) :
    step4 now2 (step4 now s) = step4 now s := by
  have huser : "user" ∈ (step4 now s).tables :=
    (step4_mem now _ s).mpr (Or.inr (Or.inl rfl))
  have hrule : "access_rule" ∈ (step4 now s).tables :=
    (step4_mem now _ s).mpr (Or.inr (Or.inr rfl))
  have hadm_iff : "admin_user" ∈ (step4 now s).tables ↔ "admin_user" ∈ s.tables := by
    rw [step4_mem]
    simp
  have hadm_iff2 : "admin_user" ∈ (createAccessRuleTable (createUserTable s)).tables
      ↔ "admin_user" ∈ s.tables := by
    rw [createAccessRuleTable_mem, createUserTable_mem]
    simp
  have hadmu : (step4 now s).adminUsers = s.adminUsers :=
    (step4_other_fields now s).2.2.2
  have hadmu2 : (createAccessRuleTable (createUserTable s)).adminUsers = s.adminUsers := by
    rw [(createAccessRuleTable_fields _).2.2.2.2.1,
      (createUserTable_fields _).2.2.2.2.1]
  have hrows : (if "admin_user" ∈ (step4 now s).tables then (step4 now s).adminUsers else [])
      = (if "admin_user" ∈ (createAccessRuleTable (createUserTable s)).tables
         then (createAccessRuleTable (createUserTable s)).adminUsers else []) := by
    by_cases hadm : "admin_user" ∈ s.tables
    · rw [if_pos (hadm_iff.mpr hadm), if_pos (hadm_iff2.mpr hadm), hadmu, hadmu2]
    · rw [if_neg (fun hc => hadm (hadm_iff.mp hc)),
        if_neg (fun hc => hadm (hadm_iff2.mp hc))]
  have huusers : (step4 now s).users
      = (if "admin_user" ∈ (createAccessRuleTable (createUserTable s)).tables
         then (createAccessRuleTable (createUserTable s)).adminUsers else []).foldl
          (insertUserIfAbsent now) (createAccessRuleTable (createUserTable s)).users := by
    simp only [step4]
  have husers : ∀ row ∈ (if "admin_user" ∈ (step4 now s).tables
      then (step4 now s).adminUsers else []),
      (step4 now s).users.any (fun x => x.email == row.username) = true := by
    rw [hrows, huusers]
    exact users_fold_has now _ _
  have huru : (step4 now s).accessRules
      = defaultFeatures.foldl insertRuleIfAbsent
          (createAccessRuleTable (createUserTable s)).accessRules := by
    simp only [step4]
  have hrules : ∀ f ∈ defaultFeatures,
      (step4 now s).accessRules.any (fun kv => kv.1 == f) = true := by
    rw [huru]
    exact rules_fold_has _ _
  exact step4_fixed now2 _ huser hrule husers hrules (step4_version now s)



/- #### Claims about the schema upgrade -/

theorem upgrade_of_ne0 (now : String) (s : Store) (h : (s.version == 0) = false) :
    upgradeSqliteSchema now s = upgradeLoop now latestVersion s := by
  simp only [upgradeSqliteSchema]
  rw [h]
  simp

theorem upgrade_of_eq0 (now : String) (s : Store) (h : s.version = 0) :
    upgradeSqliteSchema now s
      = upgradeLoop now latestVersion { s with version := inferVersion s.tables } := by
  have h0 : (s.version == 0) = true := by simp [h]
  simp only [upgradeSqliteSchema]
  rw [h0]
  simp

theorem upgrade_at5 (now : String) (s : Store) (h : s.version = 5) :
    upgradeSqliteSchema now s = .ok s := by
  rw [upgrade_of_ne0 now s (by simp [h])]
  exact run_from5 now _ s h

/-- **C1 as stated is false.** For every persisted version strictly above
the target 5 the upgrade loop (`while version < latest_version`) exits
immediately, so `upgrade_sqlite_schema` returns normally without touching
the store instead of raising the unsupported-schema-version error. -/
theorem claim_C1 (now : String) (s : Store) (h : latestVersion < s.version) :
    upgradeSqliteSchema now s = .ok s := by
  have h0 : (s.version == 0) = false := by
    simp only [latestVersion] at h
    simp
    omega
  rw [upgrade_of_ne0 now s h0]
  exact upgradeLoop_ge now _ s (le_of_lt h)

/-- Witness for C1: a store persisted at version 6 is accepted unchanged. -/
theorem claim_C1_witness :
    latestVersion < (⟨6, [], [], [], [], [], [], []⟩ : Store).version ∧
    upgradeSqliteSchema "2026-01-01 00:00:00" ⟨6, [], [], [], [], [], [], []⟩
      = .ok ⟨6, [], [], [], [], [], [], []⟩ :=
  ⟨by decide, claim_C1 _ _ (by decide)⟩

/-- **C6.** A store persisted at version 0 first gets an inferred version —
2 when a `site_setting` table is present, else 1 when `place`, `category`
and `admin_user` are all present, else 0 — and the upgrade loop starts from
that inferred version, so steps below it never run (in particular, starting
from inferred version 2 never creates the `admin_user` table). -/
theorem claim_C6 (now : String) (s : Store) (h : s.version = 0) :
    upgradeSqliteSchema now s
        = upgradeLoop now latestVersion { s with version := inferVersion s.tables } ∧
    ("site_setting" ∈ s.tables → inferVersion s.tables = 2) ∧
    ("site_setting" ∉ s.tables → "place" ∈ s.tables → "category" ∈ s.tables →
      "admin_user" ∈ s.tables → inferVersion s.tables = 1) ∧
    ("site_setting" ∉ s.tables →
      ¬("place" ∈ s.tables ∧ "category" ∈ s.tables ∧ "admin_user" ∈ s.tables) →
      inferVersion s.tables = 0) ∧
    (∀ s2, "site_setting" ∈ s.tables → "admin_user" ∉ s.tables →
      upgradeSqliteSchema now s = .ok s2 → "admin_user" ∉ s2.tables) := by
  have e1 := upgrade_of_eq0 now s h
  refine ⟨e1, ?_, ?_, ?_, ?_⟩
  · intro hsite
    simp [inferVersion, hsite]
  · intro hns hp hc ha
    simp [inferVersion, hns, hp, hc, ha]
  · intro hns htrio
    simp [inferVersion, hns, htrio]
  · intro s2 hsite hadmin hrun
    rw [e1] at hrun
    have hv2 : inferVersion s.tables = 2 := by simp [inferVersion, hsite]
    rw [hv2] at hrun
    by_cases hp : "place" ∈ s.tables
    · rw [show latestVersion = 2 + 3 from rfl,
        run_from2 now 2 { s with version := 2 } rfl hp hsite] at hrun
      cases hrun
      intro hmem
      rcases (step4_mem now _ _).mp hmem with h1 | h1 | h1
      · rcases (step3body_mem _ _).mp h1 with h2 | h2 | h2
        · rw [(step2body_facts _).1] at h2
          exact hadmin h2
        · exact absurd h2 (by decide)
        · exact absurd h2 (by decide)
      · exact absurd h1 (by decide)
      · exact absurd h1 (by decide)
    · rw [show latestVersion = 4 + 1 from rfl,
        upgradeLoop_step now 4 { s with version := 2 }
          (by show (2 : Nat) < latestVersion; decide),
        stepOf_at2 now { s with version := 2 } rfl,
        show step2 { s with version := 2 } = .error "no such table: place" from by
          simp [step2, hp]] at hrun
      exact absurd hrun (by simp)

/-- Witness for C6 at a legacy store that has only a `site_setting` table. -/
theorem claim_C6_witness :
    upgradeSqliteSchema "2024-01-01 00:00:00" ⟨0, ["site_setting"], [], [], [], [], [], []⟩
        = upgradeLoop "2024-01-01 00:00:00" latestVersion
            ⟨2, ["site_setting"], [], [], [], [], [], []⟩ ∧
    inferVersion ["site_setting"] = 2 :=
  ⟨(claim_C6 "2024-01-01 00:00:00" ⟨0, ["site_setting"], [], [], [], [], [], []⟩ rfl).1,
   (claim_C6 "2024-01-01 00:00:00" ⟨0, ["site_setting"], [], [], [], [], [], []⟩ rfl).2.1
     (by decide)⟩

/-- Entering the upgrade loop at version 0 — persisted version 0 and no
legacy tables to infer a higher version from — always aborts with the
multi-statement error of the sqlite3 driver before creating anything. -/
theorem upgrade_at0_error (now : String) (s : Store) (h : s.version = 0)
    (hinf : inferVersion s.tables = 0) :
    upgradeSqliteSchema now s
      = .error "You can only execute one statement at a time." := by
  rw [upgrade_of_eq0 now s h, hinf, show latestVersion = 4 + 1 from rfl]
  exact run_from0 now 4 { s with version := 0 } rfl

/-- On every well-formed store whose run does not enter the broken
version-0 step — persisted version 1 to 5, or persisted 0 with a nonzero
inferred version — the upgrade succeeds and leaves the version at 5,
rerunning it returns the same store, the whole run only adds tables, place
columns, settings, users and access rules while preserving the place rows
(`StoreLe`), and steps 1-4 are each safe to rerun.  Together with
`upgrade_at0_error` this makes the v0 block the sole obstruction to the
claimed idempotent convergence. -/
theorem upgrade_converges_unless_at0 (now now2 : String) (s : Store)
    (hv : s.version ≤ 5) (hwf : wfStore s)
    (h0 : s.version = 0 → inferVersion s.tables ≠ 0) :
    (∃ s1, upgradeSqliteSchema now s = .ok s1 ∧ s1.version = 5 ∧
      upgradeSqliteSchema now2 s1 = .ok s1 ∧ StoreLe s s1) ∧
    (∀ t, step1 (step1 t) = step1 t) ∧
    (∀ t u, step2 t = .ok u → step2 u = .ok u) ∧
    (∀ t u, step3 t = .ok u → step3 u = .ok u) ∧
    (∀ t, step4 now2 (step4 now t) = step4 now t) := by
  obtain ⟨hwf1, hwf2⟩ := hwf
  refine ⟨?_, step1_idem, step2_rerun, step3_rerun,
    fun t => step4_rerun now now2 t⟩
  have hcases : s.version = 0 ∨ s.version = 1 ∨ s.version = 2 ∨ s.version = 3 ∨
      s.version = 4 ∨ s.version = 5 := by omega
  rcases hcases with h | h | h | h | h | h
  · -- version 0: inference first; by h0 it lands at 1 or 2
    have e0 := upgrade_of_eq0 now s h
    by_cases hsite : "site_setting" ∈ s.tables
    · obtain ⟨hp, hc, ha⟩ := hwf1 (Or.inr hsite)
      have hinf : inferVersion s.tables = 2 := by simp [inferVersion, hsite]
      rw [hinf] at e0
      rw [show latestVersion = 2 + 3 from rfl,
        run_from2 now 2 { s with version := 2 } rfl hp hsite] at e0
      refine ⟨_, e0, step4_version now _, upgrade_at5 now2 _ (step4_version now _), ?_⟩
      exact StoreLe_trans (StoreLe_setVersion s 2)
        (StoreLe_trans (StoreLe_step2body _)
          (StoreLe_trans (StoreLe_step3body _) (StoreLe_step4 now _)))
    · by_cases htrio : "place" ∈ s.tables ∧ "category" ∈ s.tables ∧ "admin_user" ∈ s.tables
      · have hinf : inferVersion s.tables = 1 := by
          simp [inferVersion, hsite, htrio]
        rw [hinf] at e0
        rw [show latestVersion = 1 + 4 from rfl,
          run_from1 now 1 { s with version := 1 } rfl htrio.1] at e0
        refine ⟨_, e0, step4_version now _, upgrade_at5 now2 _ (step4_version now _), ?_⟩
        exact StoreLe_trans (StoreLe_setVersion s 1)
          (StoreLe_trans (StoreLe_step1 _)
            (StoreLe_trans (StoreLe_step2body _)
              (StoreLe_trans (StoreLe_step3body _) (StoreLe_step4 now _))))
      · have hinf : inferVersion s.tables = 0 := by
          simp [inferVersion, hsite, htrio]
        exact absurd hinf (h0 h)
  · obtain ⟨hp, hc, ha⟩ := hwf1 (Or.inl (by omega))
    have e1 := upgrade_of_ne0 now s (by simp [h])
    rw [show latestVersion = 1 + 4 from rfl, run_from1 now 1 s h hp] at e1
    refine ⟨_, e1, step4_version now _, upgrade_at5 now2 _ (step4_version now _), ?_⟩
    exact StoreLe_trans (StoreLe_step1 _)
      (StoreLe_trans (StoreLe_step2body _)
        (StoreLe_trans (StoreLe_step3body _) (StoreLe_step4 now _)))
  · obtain ⟨hp, hc, ha⟩ := hwf1 (Or.inl (by omega))
    have hsite := hwf2 (by omega)
    have e1 := upgrade_of_ne0 now s (by simp [h])
    rw [show latestVersion = 2 + 3 from rfl, run_from2 now 2 s h hp hsite] at e1
    refine ⟨_, e1, step4_version now _, upgrade_at5 now2 _ (step4_version now _), ?_⟩
    exact StoreLe_trans (StoreLe_step2body _)
      (StoreLe_trans (StoreLe_step3body _) (StoreLe_step4 now _))
  · have hsite := hwf2 (by omega)
    have e1 := upgrade_of_ne0 now s (by simp [h])
    rw [show latestVersion = 3 + 2 from rfl, run_from3 now 3 s h hsite] at e1
    refine ⟨_, e1, step4_version now _, upgrade_at5 now2 _ (step4_version now _), ?_⟩
    exact StoreLe_trans (StoreLe_step3body _) (StoreLe_step4 now _)
  · have e1 := upgrade_of_ne0 now s (by simp [h])
    rw [show latestVersion = 4 + 1 from rfl, run_from4 now 4 s h] at e1
    refine ⟨_, e1, step4_version now _, upgrade_at5 now2 _ (step4_version now _), ?_⟩
    exact StoreLe_step4 now s
  · exact ⟨s, upgrade_at5 now s h, h, upgrade_at5 now2 s h, StoreLe_refl s⟩

/-- **C2 as stated fails on the code.** A fresh database — persisted version
0 and no tables, so the inferred version is also 0; exactly the store a new
deployment (and the migration test of the repo itself) starts from — never reaches
version 5: the v0→v1 block sends its six-statement DDL script through a
single `conn.execute`, which the sqlite3 driver rejects, so
`upgrade_sqlite_schema` raises `ProgrammingError` with nothing created and
the transaction rolled back, for any current timestamp. -/
theorem claim_C2 (now : String) :
    inferVersion (Store.tables ⟨0, [], [], [], [], [], [], []⟩) = 0 ∧
    upgradeSqliteSchema now ⟨0, [], [], [], [], [], [], []⟩
      = .error "You can only execute one statement at a time." :=
  ⟨rfl, upgrade_at0_error now ⟨0, [], [], [], [], [], [], []⟩ rfl rfl⟩

/-- Witness for C2 at a concrete timestamp. -/
theorem claim_C2_witness :
    inferVersion (Store.tables ⟨0, [], [], [], [], [], [], []⟩) = 0 ∧
    upgradeSqliteSchema "2024-01-01 00:00:00" ⟨0, [], [], [], [], [], [], []⟩
      = .error "You can only execute one statement at a time." :=
  claim_C2 "2024-01-01 00:00:00"

end Vlog
